import Mathlib

/-!
# Frenetix: the collision-probability cost strategy

A shallow embedding of `src/strategies/CostFunctions/CalculateCollisionProbabilityFast.cpp`.

* `double` is an arbitrary linearly ordered field `α` (the reals for the theorems, the
  rationals whenever a definition is evaluated on concrete data); rounding and NaN are
  outside the model.
* `std::cos` and `std::sin` are the two fields of a `Trig α`; over the reals they are
  instantiated with `Real.cos` and `Real.sin`.
* `bvn_prob` (declared in `math/mvn.hpp`) is a parameter `bvn` of the embedding; where a
  claim speaks of the true bivariate normal probability mass, the parameter is
  instantiated with `bvnMass`, which follows the specification's description of it.
* Sequence reads (`x[i]`, `y[i]`, `theta[i]`, `predictedPath.at(i-1)`) are checked reads
  into `Option`; a read out of range makes the whole evaluation `none`.
* `int i` and the container sizes are natural numbers.
* The two `assert(!std::isnan(cost))` and the unused local `inv_dist` have no counterpart.
-/

namespace Frenetix

/-! ## Eigen value types -/

/-- Two-dimensional column vector, `Eigen::Vector2d`. -/
structure Vector2d (α : Type) where
  x : α
  y : α
deriving DecidableEq, Repr

/-- Two-by-two matrix, `Eigen::Matrix2d`, stored by entries (row, column). -/
structure Matrix2d (α : Type) where
  m00 : α
  m01 : α
  m10 : α
  m11 : α
deriving DecidableEq, Repr

/-- Planar rotation given by its angle, `Eigen::Rotation2D<double>`. -/
structure Rotation2D (α : Type) where
  angle : α
deriving DecidableEq, Repr

/-- Axis-aligned box given by the two corners it was constructed from,
`Eigen::AlignedBox2d`. The constructor stores the corners as given, in either order. -/
structure AlignedBox2d (α : Type) where
  min : Vector2d α
  max : Vector2d α
deriving DecidableEq, Repr

/-- The two trigonometric functions used by `Eigen::Rotation2D::toRotationMatrix`. -/
structure Trig (α : Type) where
  cos : α → α
  sin : α → α

section Eigen

variable {α : Type} [LinearOrderedField α]

/-- Componentwise sum, `a + b`. -/
def Vector2d.add (a b : Vector2d α) : Vector2d α := ⟨a.x + b.x, a.y + b.y⟩

/-- Componentwise difference, `a - b`. -/
def Vector2d.sub (a b : Vector2d α) : Vector2d α := ⟨a.x - b.x, a.y - b.y⟩

/-- The zero vector, `Eigen::Vector2d::Zero()`. -/
def Vector2d.Zero : Vector2d α := ⟨0, 0⟩

instance : Add (Vector2d α) := ⟨Vector2d.add⟩

instance : Sub (Vector2d α) := ⟨Vector2d.sub⟩

/-- Matrix product, `a * b`. -/
def Matrix2d.mul (a b : Matrix2d α) : Matrix2d α :=
  ⟨a.m00 * b.m00 + a.m01 * b.m10, a.m00 * b.m01 + a.m01 * b.m11,
   a.m10 * b.m00 + a.m11 * b.m10, a.m10 * b.m01 + a.m11 * b.m11⟩

/-- Matrix transpose, `a.transpose()`. -/
def Matrix2d.transpose (a : Matrix2d α) : Matrix2d α := ⟨a.m00, a.m10, a.m01, a.m11⟩

/-- Matrix-vector product, `a * v`. -/
def Matrix2d.mulVec (a : Matrix2d α) (v : Vector2d α) : Vector2d α :=
  ⟨a.m00 * v.x + a.m01 * v.y, a.m10 * v.x + a.m11 * v.y⟩

instance : Mul (Matrix2d α) := ⟨Matrix2d.mul⟩

/-- The rotation by the opposite angle, `Rotation2D::inverse()`. -/
def Rotation2D.inverse (r : Rotation2D α) : Rotation2D α := ⟨-r.angle⟩

/-- The matrix `[[cos a, -sin a], [sin a, cos a]]`, `Rotation2D::toRotationMatrix()`. -/
def Rotation2D.toRotationMatrix (T : Trig α) (r : Rotation2D α) : Matrix2d α :=
  ⟨T.cos r.angle, -T.sin r.angle, T.sin r.angle, T.cos r.angle⟩

/-- Applying a rotation to a vector, `r * v`, which Eigen computes as
`r.toRotationMatrix() * v`. -/
def Rotation2D.apply (T : Trig α) (r : Rotation2D α) (v : Vector2d α) : Vector2d α :=
  (r.toRotationMatrix T).mulVec v

/-- One coordinate of `AlignedBox::squaredExteriorDistance`: the squared gap between the
coordinate `p` and the interval from `lo` to `hi`, with the two tests in Eigen's order. -/
def AlignedBox2d.axisTerm (lo hi p : α) : α :=
  if lo > p then (lo - p) * (lo - p)
  else if p > hi then (p - hi) * (p - hi)
  else 0

/-- Squared distance from the point `p` to the box, zero when `p` is inside:
`AlignedBox::squaredExteriorDistance(p)` of Eigen, which adds one term per coordinate. -/
def AlignedBox2d.squaredExteriorDistance (b : AlignedBox2d α) (p : Vector2d α) : α :=
  0 + AlignedBox2d.axisTerm b.min.x b.max.x p.x + AlignedBox2d.axisTerm b.min.y b.max.y p.y

end Eigen

/-! ## Data model -/

/-- Modelled from the spec: the header declaring `PoseWithCovariance` is not among the
sources. A predicted pose is a mean position and a positional covariance; `position` is
what the code reads as `pose.position.head<2>()` and `covariance` what it reads as
`pose.covariance.topLeftCorner<2,2>()`. -/
structure PoseWithCovariance (α : Type) where
  position : Vector2d α
  covariance : Matrix2d α
deriving DecidableEq, Repr

/-- Modelled from the spec: the header declaring `PredictedObject` is not among the
sources. A predicted object is the ordered sequence of its predicted poses. -/
structure PredictedObject (α : Type) where
  predictedPath : List (PoseWithCovariance α)
deriving DecidableEq, Repr

/-- Modelled from the spec: the header declaring `CartesianSample` is not among the
sources. The ego states are three coordinate sequences. -/
structure CartesianSample (α : Type) where
  x : List α
  y : List α
  theta : List α
deriving DecidableEq, Repr

/-- One entry of a trajectory's cost list: strategy name, raw cost, weighted cost. -/
structure CostEntry (α : Type) where
  name : String
  cost : α
  costWeighted : α
deriving DecidableEq, Repr

/-- Modelled from the spec: the header declaring `TrajectorySample` is not among the
sources. A trajectory sample is its Cartesian states together with the list of cost
entries accumulated so far. -/
structure TrajectorySample (α : Type) where
  m_cartesianSample : CartesianSample α
  m_costList : List (CostEntry α)
deriving DecidableEq, Repr

/-- Modelled from the spec: `TrajectorySample::addCostValueToList` is defined outside the
sources. It appends the entry `(name, cost, costWeighted)` to the cost list and touches
no other field. -/
def TrajectorySample.addCostValueToList {α : Type} (t : TrajectorySample α)
    (name : String) (cost costWeighted : α) : TrajectorySample α :=
  { t with m_costList := t.m_costList ++ [⟨name, cost, costWeighted⟩] }

/-- The data-model invariant of a trajectory sample: the three coordinate sequences have
the same length. -/
def CartesianSample.WellFormed {α : Type} (cs : CartesianSample α) : Prop :=
  cs.y.length = cs.x.length ∧ cs.theta.length = cs.x.length

instance {α : Type} (cs : CartesianSample α) : Decidable cs.WellFormed := by
  unfold CartesianSample.WellFormed
  infer_instance

/-- The region integrator `bvn_prob(box, mean, cov)` of `math/mvn.hpp`, a parameter of the
embedding. -/
abbrev Integrator (α : Type) := AlignedBox2d α → Vector2d α → Matrix2d α → α

/-- The strategy object: the members of `CalculateCollisionProbabilityFast` and of its base
`CostStrategy`. `m_predictions` is the `std::map<int, PredictedObject>` given as the
sequence of its entries in iteration order. -/
structure CalculateCollisionProbabilityFast (α : Type) where
  m_functionName : String
  m_costWeight : α
  m_predictions : List (Int × PredictedObject α)
  m_vehicleLength : α
  m_vehicleWidth : α

/-! ## The two member functions -/

section Code

variable {α : Type} [LinearOrderedField α]

/-- The member function `CalculateCollisionProbabilityFast::integrate` (lines 17-35). -/
def integrate (T : Trig α) (bvn : Integrator α) (pose : PoseWithCovariance α)
    (pos : Vector2d α) (offset : Vector2d α) (orientation : α) : α :=
  let v : Vector2d α := pose.position
  let ego_rot : Rotation2D α := ⟨orientation⟩
  let inv_ego_rot : Rotation2D α := ego_rot.inverse
  let mpos : Vector2d α := pos - v
  let min : Vector2d α := mpos + ego_rot.apply T offset
  let max : Vector2d α := mpos - ego_rot.apply T offset
  let box : AlignedBox2d α := ⟨inv_ego_rot.apply T min, inv_ego_rot.apply T max⟩
  let cov_rot_mat : Matrix2d α := inv_ego_rot.toRotationMatrix T
  let cov : Matrix2d α := cov_rot_mat * pose.covariance * cov_rot_mat.transpose
  |bvn box Vector2d.Zero cov|

/-- The inner loop of `evaluateTrajectory` (lines 47-71) for one obstacle, entered with loop
counter `i` and running total `cost`; the result is the running total when the loop is
left, or `none` when a sequence is read out of range. -/
def timeLoop (T : Trig α) (bvn : Integrator α) (offset : Vector2d α)
    (cs : CartesianSample α) (prediction : PredictedObject α) (i : Nat) (cost : α) :
    Option α :=
  if _h : i < cs.x.length then
    if i ≥ prediction.predictedPath.length then some cost
    else
      match cs.x[i]?, cs.y[i]?, prediction.predictedPath[i - 1]? with
      | some xi, some yi, some pose =>
        let u : Vector2d α := ⟨xi, yi⟩
        let box : AlignedBox2d α := ⟨u - offset, u + offset⟩
        let v : Vector2d α := pose.position
        if box.squaredExteriorDistance v > 50 then
          timeLoop T bvn offset cs prediction (i + 1) cost
        else
          match cs.theta[i]? with
          | some th =>
            let bvcost := integrate T bvn pose u offset th
            timeLoop T bvn offset cs prediction (i + 1) (cost + bvcost)
          | none => none
      | _, _, _ => none
  else some cost
termination_by cs.x.length - i
decreasing_by all_goals omega

/-- The outer loop of `evaluateTrajectory` (lines 43-72): the obstacles of the mapping in
iteration order, each running the inner loop from `i = 1` on the shared running total. -/
def obstacleLoop (T : Trig α) (bvn : Integrator α) (offset : Vector2d α)
    (cs : CartesianSample α) : List (Int × PredictedObject α) → α → Option α
  | [], cost => some cost
  | (_, prediction) :: rest, cost =>
    match timeLoop T bvn offset cs prediction 1 cost with
    | some cost1 => obstacleLoop T bvn offset cs rest cost1
    | none => none

/-- The value of the local `cost` when `evaluateTrajectory` reaches line 76. -/
def rawCost (T : Trig α) (bvn : Integrator α) (s : CalculateCollisionProbabilityFast α)
    (trajectory : TrajectorySample α) : Option α :=
  let offset : Vector2d α := ⟨s.m_vehicleLength / 2, s.m_vehicleWidth / 2⟩
  obstacleLoop T bvn offset trajectory.m_cartesianSample s.m_predictions 0

/-- The member function `CalculateCollisionProbabilityFast::evaluateTrajectory`
(lines 37-77), returning the updated trajectory. -/
def evaluateTrajectory (T : Trig α) (bvn : Integrator α)
    (s : CalculateCollisionProbabilityFast α) (trajectory : TrajectorySample α) :
    Option (TrajectorySample α) :=
  match rawCost T bvn s trajectory with
  | some cost =>
    some (trajectory.addCostValueToList s.m_functionName cost (cost * s.m_costWeight))
  | none => none

end Code

/-! ## The query that `integrate` sends to the integrator -/

section Query

variable {α : Type} [LinearOrderedField α]

/-- Lines 19 to 28 of `integrate`: the box handed to `bvn_prob`, with the corner the code
calls `min` stored first. -/
def integrateBox (T : Trig α) (pose : PoseWithCovariance α) (pos : Vector2d α)
    (offset : Vector2d α) (orientation : α) : AlignedBox2d α :=
  let v : Vector2d α := pose.position
  let ego_rot : Rotation2D α := ⟨orientation⟩
  let inv_ego_rot : Rotation2D α := ego_rot.inverse
  let mpos : Vector2d α := pos - v
  let min : Vector2d α := mpos + ego_rot.apply T offset
  let max : Vector2d α := mpos - ego_rot.apply T offset
  ⟨inv_ego_rot.apply T min, inv_ego_rot.apply T max⟩

/-- Lines 21, 22, 31 and 32 of `integrate`: the covariance handed to `bvn_prob`. -/
def integrateCov (T : Trig α) (pose : PoseWithCovariance α) (orientation : α) :
    Matrix2d α :=
  let ego_rot : Rotation2D α := ⟨orientation⟩
  let inv_ego_rot : Rotation2D α := ego_rot.inverse
  let cov_rot_mat : Matrix2d α := inv_ego_rot.toRotationMatrix T
  cov_rot_mat * pose.covariance * cov_rot_mat.transpose

/-- The identity matrix. -/
def Matrix2d.identity : Matrix2d α := ⟨1, 0, 0, 1⟩

/-- Trace of a two-by-two matrix. -/
def Matrix2d.trace (S : Matrix2d α) : α := S.m00 + S.m11

end Query

/-! ## The cost as the specification words it

The following definitions follow the wording of the specification (section 4.1, steps 3
to 5); they are compared with the loops above in the theorems below. -/

section Spec

variable {α : Type} [LinearOrderedField α]

/-- The pose at the origin with zero covariance, the default of a read that the
specification-side sums never make out of range. -/
def PoseWithCovariance.origin : PoseWithCovariance α := ⟨⟨0, 0⟩, ⟨0, 0, 0, 0⟩⟩

/-- Steps 3a to 3d of the specification for one ego state `(xi, yi, th)` and one obstacle
pose: zero when the squared exterior distance from the obstacle mean to the box
`[u - offset, u + offset]` exceeds 50, the value of `integrate` otherwise. -/
def stepContribution (T : Trig α) (bvn : Integrator α) (offset : Vector2d α)
    (xi yi th : α) (pose : PoseWithCovariance α) : α :=
  let u : Vector2d α := ⟨xi, yi⟩
  let box : AlignedBox2d α := ⟨u - offset, u + offset⟩
  if box.squaredExteriorDistance pose.position > 50 then 0
  else integrate T bvn pose u offset th

/-- The step contribution of ego state `i` paired with the obstacle pose `i - 1`. -/
def pairedContribution (T : Trig α) (bvn : Integrator α) (offset : Vector2d α)
    (cs : CartesianSample α) (prediction : PredictedObject α) (i : Nat) : α :=
  stepContribution T bvn offset (cs.x.getD i 0) (cs.y.getD i 0) (cs.theta.getD i 0)
    (prediction.predictedPath.getD (i - 1) PoseWithCovariance.origin)

/-- Step 3 of the specification for one obstacle: the sum of the paired contributions over
the time indices `1 ≤ i ≤ min (n - 1) (m - 1)`, where `n` is the length of the trajectory
and `m` the length of the predicted path. -/
def specObstacleCost (T : Trig α) (bvn : Integrator α) (offset : Vector2d α)
    (cs : CartesianSample α) (prediction : PredictedObject α) : α :=
  ∑ i ∈ Finset.Icc 1 (min (cs.x.length - 1) (prediction.predictedPath.length - 1)),
    pairedContribution T bvn offset cs prediction i

/-- Steps 1, 2 and 4 of the specification: the sum of the per-obstacle costs over the
entries of the prediction mapping, with `offset = (vehicleLength / 2, vehicleWidth / 2)`. -/
def specRawCost (T : Trig α) (bvn : Integrator α) (s : CalculateCollisionProbabilityFast α)
    (trajectory : TrajectorySample α) : α :=
  (s.m_predictions.map (fun e =>
    specObstacleCost T bvn ⟨s.m_vehicleLength / 2, s.m_vehicleWidth / 2⟩
      trajectory.m_cartesianSample e.2)).sum

/-- The ego trajectory of the two concrete scenarios: positions (0,0), (1,0), (2,0) with
heading 0 throughout, carrying the cost entries `costs`. -/
def scenarioTrajectory (costs : List (CostEntry α)) : TrajectorySample α :=
  ⟨⟨[0, 1, 2], [0, 0, 0], [0, 0, 0]⟩, costs⟩

/-- The strategy of the two concrete scenarios: vehicle length 2 and width 1. -/
def scenarioStrategy (name : String) (weight : α)
    (predictions : List (Int × PredictedObject α)) : CalculateCollisionProbabilityFast α :=
  ⟨name, weight, predictions, 2, 1⟩

end Spec

/-! ## Rotations of the input, footprint and cull test, as the claims word them -/

section Symmetry

variable {α : Type} [LinearOrderedField α]

/-- The pose with its covariance `S` replaced by `R(phi) S R(phi)ᵀ`. -/
def PoseWithCovariance.rotateCovariance (T : Trig α) (phi : α)
    (pose : PoseWithCovariance α) : PoseWithCovariance α :=
  { pose with
    covariance := (Rotation2D.mk phi).toRotationMatrix T * pose.covariance *
      ((Rotation2D.mk phi).toRotationMatrix T).transpose }

/-- The strategy with every obstacle covariance rotated by `phi`. -/
def CalculateCollisionProbabilityFast.rotateCovariances (T : Trig α) (phi : α)
    (s : CalculateCollisionProbabilityFast α) : CalculateCollisionProbabilityFast α :=
  { s with
    m_predictions := s.m_predictions.map (fun e =>
      (e.1, PredictedObject.mk (e.2.predictedPath.map (fun pose =>
        pose.rotateCovariance T phi)))) }

/-- The trajectory with every ego heading `theta[i]` replaced by `theta[i] + phi`. -/
def TrajectorySample.rotateHeadings (phi : α) (t : TrajectorySample α) :
    TrajectorySample α :=
  { t with
    m_cartesianSample :=
      { t.m_cartesianSample with theta := t.m_cartesianSample.theta.map (fun th => th + phi) } }

/-- The cull test of line 63 for the ego position `u` and the obstacle mean `v`. -/
def cullTest (offset u v : Vector2d α) : Prop :=
  (AlignedBox2d.mk (u - offset) (u + offset)).squaredExteriorDistance v > 50

instance (offset u v : Vector2d α) : Decidable (cullTest offset u v) := by
  unfold cullTest
  infer_instance

/-- The point `v` lies in the footprint rectangle of a vehicle of length `L` and width `W`
centred on `u` and turned by the heading `theta`:
`v = u + R(theta) (a, b)` with `|a| ≤ L/2` and `|b| ≤ W/2`. -/
def inFootprint (T : Trig α) (L W : α) (u : Vector2d α) (theta : α) (v : Vector2d α) :
    Prop :=
  ∃ a b : α, |a| ≤ L / 2 ∧ |b| ≤ W / 2 ∧ v = u + (Rotation2D.mk theta).apply T ⟨a, b⟩

/-- Determinant of a two-by-two matrix. -/
def Matrix2d.det (S : Matrix2d α) : α :=
  S.m00 * S.m11 - S.m01 * S.m10

end Symmetry

/-- The trigonometric functions of the reals, standing for `std::cos` and `std::sin`. -/
noncomputable def realTrig : Trig ℝ := ⟨Real.cos, Real.sin⟩

/-! ## The region integrator as the specification describes it -/

/-- The rectangle spanned by the two corners stored in the box, whichever way round they
were given. -/
def AlignedBox2d.region (box : AlignedBox2d ℝ) : Set (ℝ × ℝ) :=
  Set.uIcc box.min.x box.max.x ×ˢ Set.uIcc box.min.y box.max.y

/-- The density at `p` of the centred bivariate normal distribution with covariance `cov`:
`exp (-(pᵀ cov⁻¹ p) / 2) / (2 π √(det cov))`, written out for a two-by-two matrix. -/
noncomputable def bvnDensity (cov : Matrix2d ℝ) (p : ℝ × ℝ) : ℝ :=
  1 / (2 * Real.pi * Real.sqrt (cov.m00 * cov.m11 - cov.m01 * cov.m10)) *
    Real.exp (-(cov.m11 * p.1 ^ 2 - (cov.m01 + cov.m10) * p.1 * p.2 + cov.m00 * p.2 ^ 2) /
      (2 * (cov.m00 * cov.m11 - cov.m01 * cov.m10)))

/-- Modelled from the spec: `bvn_prob` of `math/mvn.hpp` is not among the sources. Given a
rectangular region, a mean and a covariance it returns the probability mass of the
bivariate normal distribution inside the region, here the integral of the density over
the rectangle spanned by the corners of the box (for a positive definite covariance).
The rectangle is taken between the two corners in either order, because `integrate`
hands over the corner `mpos + offset` as the minimum and `mpos - offset` as the maximum. -/
noncomputable def bvnMass : Integrator ℝ := fun box mean cov =>
  ∫ p in box.region, bvnDensity cov (p.1 - mean.x, p.2 - mean.y)

/-- A covariance matrix is symmetric and positive semi-definite. -/
def Matrix2d.IsCovariance (S : Matrix2d ℝ) : Prop :=
  S.m01 = S.m10 ∧
    ∀ a b : ℝ, 0 ≤ S.m00 * a ^ 2 + (S.m01 + S.m10) * a * b + S.m11 * b ^ 2

/-! ## Concrete data on which the definitions are evaluated -/

/-- Cosine and sine at heading zero, enough to evaluate a trajectory whose headings are
all zero over the rationals. -/
def headingZeroTrig : Trig ℚ := ⟨fun _ => 1, fun _ => 0⟩

/-- A stand-in integrator over the rationals: the signed area of the queried box. -/
def areaIntegrator : Integrator ℚ :=
  fun box _ _ => (box.max.x - box.min.x) * (box.max.y - box.min.y)

/-- A pose at `(px, py)` with covariance `[[1/100, 0], [0, 1/100]]`. -/
def tightPose (px py : ℚ) : PoseWithCovariance ℚ := ⟨⟨px, py⟩, ⟨1 / 100, 0, 0, 1 / 100⟩⟩

/-! ## Theorems -/

section Proofs

variable {α : Type} [LinearOrderedField α]

/-! ### Reading the sequences and unrolling the loops -/

theorem Vector2d.sub_mk (a b c d : α) :
    (Vector2d.mk a b - Vector2d.mk c d : Vector2d α) = ⟨a - c, b - d⟩ := rfl

theorem Vector2d.add_mk (a b c d : α) :
    (Vector2d.mk a b + Vector2d.mk c d : Vector2d α) = ⟨a + c, b + d⟩ := rfl

theorem Matrix2d.mul_def (a b : Matrix2d α) : a * b = Matrix2d.mul a b := rfl

theorem getElem_opt_eq_some_getD {β : Type} (l : List β) (i : Nat) (d : β) (h : i < l.length) :
    l[i]? = some (l.getD i d) := by
  simp [List.getD, List.getElem?_eq_getElem h]

theorem getD_mem_of_lt {β : Type} (l : List β) (i : Nat) (d : β) (h : i < l.length) :
    l.getD i d ∈ l := by
  rw [List.getD_eq_getElem l d h]
  exact List.getElem_mem h

theorem getD_map_of_lt {β γ : Type} (f : β → γ) (l : List β) (i : Nat) (d : β) (d1 : γ)
    (h : i < l.length) : (l.map f).getD i d1 = f (l.getD i d) := by
  rw [List.getD_eq_getElem _ _ (by rw [List.length_map]; exact h),
    List.getD_eq_getElem _ _ h, List.getElem_map]

theorem timeLoop_eq (T : Trig α) (bvn : Integrator α) (offset : Vector2d α)
    (cs : CartesianSample α) (prediction : PredictedObject α) (hwf : cs.WellFormed) :
    ∀ (k i : Nat) (cost : α), 1 ≤ i →
      min cs.x.length prediction.predictedPath.length - i = k →
      timeLoop T bvn offset cs prediction i cost =
        some (cost + ∑ j ∈ Finset.Ico i (min cs.x.length prediction.predictedPath.length),
          pairedContribution T bvn offset cs prediction j) := by
  intro k
  induction k with
  | zero =>
    intro i cost _ hk
    have hge : min cs.x.length prediction.predictedPath.length ≤ i := by omega
    rw [timeLoop, Finset.Ico_eq_empty_of_le hge]
    by_cases h1 : i < cs.x.length
    · have h2 : i ≥ prediction.predictedPath.length := by
        rcases Nat.le_total cs.x.length prediction.predictedPath.length with h | h
        · rw [Nat.min_eq_left h] at hge; omega
        · rw [Nat.min_eq_right h] at hge; omega
      simp [h1, h2]
    · simp [h1]
  | succ k ih =>
    intro i cost hi hk
    have hlt : i < min cs.x.length prediction.predictedPath.length := by omega
    have h1 : i < cs.x.length := lt_of_lt_of_le hlt (Nat.min_le_left _ _)
    have h2 : i < prediction.predictedPath.length := lt_of_lt_of_le hlt (Nat.min_le_right _ _)
    have hx := getElem_opt_eq_some_getD cs.x i 0 h1
    have hy := getElem_opt_eq_some_getD cs.y i 0 (by rw [hwf.1]; exact h1)
    have ht := getElem_opt_eq_some_getD cs.theta i 0 (by rw [hwf.2]; exact h1)
    have hp := getElem_opt_eq_some_getD prediction.predictedPath (i - 1)
      PoseWithCovariance.origin (by omega)
    have hrec := fun c => ih (i + 1) c (by omega) (by omega)
    rw [timeLoop, Finset.sum_eq_sum_Ico_succ_bot hlt]
    simp only [h1, dite_true, ge_iff_le, not_le.mpr h2, ite_false, hx, hy, hp, ht, hrec]
    unfold pairedContribution stepContribution
    by_cases hc : (AlignedBox2d.mk (Vector2d.mk (cs.x.getD i 0) (cs.y.getD i 0) - offset)
        (Vector2d.mk (cs.x.getD i 0) (cs.y.getD i 0) + offset)).squaredExteriorDistance
        (prediction.predictedPath.getD (i - 1) PoseWithCovariance.origin).position > 50
    · simp only [hc, ite_true, zero_add]
    · simp only [hc, ite_false, add_assoc]

theorem Ico_eq_Icc_pred (n m : Nat) :
    Finset.Ico 1 (min n m) = Finset.Icc 1 (min (n - 1) (m - 1)) := by
  ext j
  simp only [Finset.mem_Ico, Finset.mem_Icc]
  omega

theorem timeLoop_from_one (T : Trig α) (bvn : Integrator α) (offset : Vector2d α)
    (cs : CartesianSample α) (prediction : PredictedObject α) (hwf : cs.WellFormed)
    (cost : α) :
    timeLoop T bvn offset cs prediction 1 cost =
      some (cost + specObstacleCost T bvn offset cs prediction) := by
  rw [timeLoop_eq T bvn offset cs prediction hwf _ 1 cost (le_refl 1) rfl, Ico_eq_Icc_pred]
  rfl

theorem obstacleLoop_eq (T : Trig α) (bvn : Integrator α) (offset : Vector2d α)
    (cs : CartesianSample α) (hwf : cs.WellFormed) :
    ∀ (preds : List (Int × PredictedObject α)) (cost : α),
      obstacleLoop T bvn offset cs preds cost =
        some (cost + (preds.map (fun e => specObstacleCost T bvn offset cs e.2)).sum) := by
  intro preds
  induction preds with
  | nil => intro cost; simp [obstacleLoop]
  | cons e rest ih =>
    intro cost
    obtain ⟨id, prediction⟩ := e
    simp only [obstacleLoop, timeLoop_from_one T bvn offset cs prediction hwf, ih,
      List.map_cons, List.sum_cons, add_assoc]

theorem rawCost_eq (T : Trig α) (bvn : Integrator α) (s : CalculateCollisionProbabilityFast α)
    (trajectory : TrajectorySample α) (hwf : trajectory.m_cartesianSample.WellFormed) :
    rawCost T bvn s trajectory = some (specRawCost T bvn s trajectory) := by
  unfold rawCost specRawCost
  simp only [obstacleLoop_eq T bvn _ _ hwf, zero_add]

theorem evaluateTrajectory_eq (T : Trig α) (bvn : Integrator α)
    (s : CalculateCollisionProbabilityFast α) (trajectory : TrajectorySample α)
    (hwf : trajectory.m_cartesianSample.WellFormed) :
    evaluateTrajectory T bvn s trajectory =
      some (trajectory.addCostValueToList s.m_functionName (specRawCost T bvn s trajectory)
        (specRawCost T bvn s trajectory * s.m_costWeight)) := by
  unfold evaluateTrajectory
  rw [rawCost_eq T bvn s trajectory hwf]

theorem evaluateTrajectory_some_iff (T : Trig α) (bvn : Integrator α)
    (s : CalculateCollisionProbabilityFast α) (trajectory t1 : TrajectorySample α) :
    evaluateTrajectory T bvn s trajectory = some t1 ↔
      ∃ cost, rawCost T bvn s trajectory = some cost ∧
        t1 = trajectory.addCostValueToList s.m_functionName cost (cost * s.m_costWeight) := by
  unfold evaluateTrajectory
  cases h : rawCost T bvn s trajectory with
  | none => simp
  | some c =>
    simp only [Option.some.injEq, exists_eq_left']
    exact eq_comm

/-- With two ego states and two predicted poses the loop pairs ego state 1 with pose 0 and
nothing else. -/
theorem two_state_raw_cost (T : Trig α) (bvn : Integrator α) (name : String) (weight : α)
    (id : Int) (p0 p1 : PoseWithCovariance α) (L W x0 x1 y0 y1 t0 t1 : α)
    (costs : List (CostEntry α)) :
    specRawCost T bvn ⟨name, weight, [(id, ⟨[p0, p1]⟩)], L, W⟩
        ⟨⟨[x0, x1], [y0, y1], [t0, t1]⟩, costs⟩ =
      stepContribution T bvn ⟨L / 2, W / 2⟩ x1 y1 t1 p0 := by
  simp only [specRawCost, specObstacleCost, List.map_cons, List.map_nil, List.sum_cons,
    List.sum_nil, add_zero, List.length_cons, List.length_nil]
  rw [show min (0 + 1 + 1 - 1) (0 + 1 + 1 - 1) = 1 from rfl, Finset.Icc_self,
    Finset.sum_singleton]
  simp only [pairedContribution, List.getD_cons_succ, List.getD_cons_zero, Nat.sub_self]

/-- The run of `evaluateTrajectory` on a trajectory of two ego states against a single
obstacle with two predicted poses: the appended raw cost is the contribution of ego
state 1 paired with pose 0. -/
theorem two_state_evaluate (T : Trig α) (bvn : Integrator α) (name : String) (weight : α)
    (id : Int) (p0 p1 : PoseWithCovariance α) (L W x0 x1 y0 y1 t0 t1 : α)
    (costs : List (CostEntry α)) :
    evaluateTrajectory T bvn ⟨name, weight, [(id, ⟨[p0, p1]⟩)], L, W⟩
        ⟨⟨[x0, x1], [y0, y1], [t0, t1]⟩, costs⟩ =
      some ⟨⟨[x0, x1], [y0, y1], [t0, t1]⟩,
        costs ++ [⟨name, stepContribution T bvn ⟨L / 2, W / 2⟩ x1 y1 t1 p0,
          stepContribution T bvn ⟨L / 2, W / 2⟩ x1 y1 t1 p0 * weight⟩]⟩ := by
  rw [evaluateTrajectory_eq T bvn _ _ ⟨rfl, rfl⟩, two_state_raw_cost]
  rfl

/-- One pass of the loop body at a culled step leaves the running total as it is. -/
theorem timeLoop_culled_step (T : Trig α) (bvn : Integrator α) (offset : Vector2d α)
    (cs : CartesianSample α) (prediction : PredictedObject α) (i : Nat) (cost : α)
    (xi yi : α) (pose : PoseWithCovariance α)
    (hx : cs.x[i]? = some xi) (hy : cs.y[i]? = some yi)
    (hm : i < prediction.predictedPath.length)
    (hp : prediction.predictedPath[i - 1]? = some pose)
    (hc : cullTest offset ⟨xi, yi⟩ pose.position) :
    timeLoop T bvn offset cs prediction i cost =
      timeLoop T bvn offset cs prediction (i + 1) cost := by
  have h1 : i < cs.x.length := by
    by_contra hn
    rw [List.getElem?_eq_none (not_lt.mp hn)] at hx
    exact Option.noConfusion hx
  unfold cullTest at hc
  rw [timeLoop]
  simp only [h1, dite_true, ge_iff_le, not_le.mpr hm, ite_false, hx, hy, hp, hc, ite_true]

/-- One pass of the loop body at a step that is not culled adds the value of `integrate`
to the running total. -/
theorem timeLoop_integrated_step (T : Trig α) (bvn : Integrator α) (offset : Vector2d α)
    (cs : CartesianSample α) (prediction : PredictedObject α) (i : Nat) (cost : α)
    (xi yi th : α) (pose : PoseWithCovariance α)
    (hx : cs.x[i]? = some xi) (hy : cs.y[i]? = some yi) (hth : cs.theta[i]? = some th)
    (hm : i < prediction.predictedPath.length)
    (hp : prediction.predictedPath[i - 1]? = some pose)
    (hc : ¬ cullTest offset ⟨xi, yi⟩ pose.position) :
    timeLoop T bvn offset cs prediction i cost =
      timeLoop T bvn offset cs prediction (i + 1)
        (cost + integrate T bvn pose ⟨xi, yi⟩ offset th) := by
  have h1 : i < cs.x.length := by
    by_contra hn
    rw [List.getElem?_eq_none (not_lt.mp hn)] at hx
    exact Option.noConfusion hx
  unfold cullTest at hc
  rw [timeLoop]
  simp only [h1, dite_true, ge_iff_le, not_le.mpr hm, ite_false, hx, hy, hp, hth, hc]

theorem scenario_far_step (T : Trig α) (bvn : Integrator α) (xi th : α)
    (pose : PoseWithCovariance α) (hpos : pose.position = ⟨20, 20⟩) (hx : xi ≤ 10) :
    stepContribution T bvn ⟨2 / 2, 1 / 2⟩ xi 0 th pose = 0 := by
  have hc : (AlignedBox2d.mk (Vector2d.mk xi 0 - ⟨2 / 2, 1 / 2⟩)
      (Vector2d.mk xi 0 + ⟨2 / 2, 1 / 2⟩)).squaredExteriorDistance pose.position > 50 := by
    rw [hpos]
    simp only [Vector2d.sub_mk, Vector2d.add_mk, AlignedBox2d.squaredExteriorDistance,
      AlignedBox2d.axisTerm]
    have h1 : ¬ (xi - 2 / 2 > 20) := by linarith
    have h2 : (20 : α) > xi + 2 / 2 := by linarith
    have h3 : ¬ ((0 : α) - 1 / 2 > 20) := by norm_num
    have h4 : (20 : α) > 0 + 1 / 2 := by norm_num
    simp only [h1, h2, h3, h4, ite_true, ite_false]
    nlinarith [mul_self_nonneg (20 - (xi + 2 / 2))]
  unfold stepContribution
  simp only [hc, ite_true]

/-! ### What the loops do not read, and the sign of the cost -/

/-- The inner loop entered at `i ≥ 1` gives the same result on two samples and two paths
that agree on everything the loop can read from `i` on: the ego states at the indices
`j ≥ i` and the poses at the indices `j - 1` with `i ≤ j < n` and `j < m`. -/
theorem timeLoop_congr (T : Trig α) (bvn : Integrator α) (offset : Vector2d α)
    (cs1 cs2 : CartesianSample α) (p1 p2 : PredictedObject α)
    (hx : ∀ j : Nat, 1 ≤ j → cs1.x[j]? = cs2.x[j]?)
    (hy : ∀ j : Nat, 1 ≤ j → cs1.y[j]? = cs2.y[j]?)
    (hth : ∀ j : Nat, 1 ≤ j → cs1.theta[j]? = cs2.theta[j]?)
    (hlen : p1.predictedPath.length = p2.predictedPath.length)
    (hp : ∀ j : Nat, 1 ≤ j → j < cs1.x.length → j < p1.predictedPath.length →
      p1.predictedPath[j - 1]? = p2.predictedPath[j - 1]?) :
    ∀ (k i : Nat) (cost : α), 1 ≤ i → cs1.x.length - i = k →
      timeLoop T bvn offset cs1 p1 i cost = timeLoop T bvn offset cs2 p2 i cost := by
  have hn : ∀ j : Nat, 1 ≤ j → (j < cs1.x.length ↔ j < cs2.x.length) := by
    intro j hj
    have h := hx j hj
    constructor
    · intro h1
      by_contra h2
      rw [List.getElem?_eq_getElem h1, List.getElem?_eq_none (not_lt.mp h2)] at h
      exact Option.noConfusion h
    · intro h2
      by_contra h1
      rw [List.getElem?_eq_getElem h2, List.getElem?_eq_none (not_lt.mp h1)] at h
      exact Option.noConfusion h
  intro k
  induction k with
  | zero =>
    intro i cost hi hk
    have h1 : ¬ i < cs1.x.length := by omega
    have h2 : ¬ i < cs2.x.length := fun h => h1 ((hn i hi).mpr h)
    rw [timeLoop, timeLoop.eq_1 T bvn offset cs2 p2 i cost]
    simp only [h1, h2, dite_false]
  | succ k ih =>
    intro i cost hi hk
    have h1 : i < cs1.x.length := by omega
    have h2 : i < cs2.x.length := (hn i hi).mp h1
    have hrec := fun c => ih (i + 1) c (by omega) (by omega)
    rw [timeLoop, timeLoop.eq_1 T bvn offset cs2 p2 i cost]
    simp only [h1, h2, dite_true, ← hlen]
    by_cases hm : i ≥ p1.predictedPath.length
    · simp only [hm, ite_true]
    · simp only [hm, ite_false, ← hx i hi, ← hy i hi, ← hth i hi,
        ← hp i hi h1 (not_le.mp hm), hrec]

theorem obstacleLoop_append (T : Trig α) (bvn : Integrator α) (offset : Vector2d α)
    (cs : CartesianSample α) (a b : List (Int × PredictedObject α)) :
    ∀ cost : α, obstacleLoop T bvn offset cs (a ++ b) cost =
      (obstacleLoop T bvn offset cs a cost).bind (fun c => obstacleLoop T bvn offset cs b c) := by
  induction a with
  | nil => intro cost; simp [obstacleLoop]
  | cons e rest ih =>
    intro cost
    obtain ⟨id, prediction⟩ := e
    simp only [List.cons_append, obstacleLoop]
    cases timeLoop T bvn offset cs prediction 1 cost with
    | none => rfl
    | some c => exact ih c

/-- An obstacle whose inner loop agrees with that of another obstacle can be exchanged for
it anywhere in the mapping. -/
theorem obstacleLoop_exchange (T : Trig α) (bvn : Integrator α) (offset : Vector2d α)
    (cs : CartesianSample α) (a b : List (Int × PredictedObject α)) (id1 id2 : Int)
    (p1 p2 : PredictedObject α)
    (h : ∀ cost : α, timeLoop T bvn offset cs p1 1 cost = timeLoop T bvn offset cs p2 1 cost)
    (cost : α) :
    obstacleLoop T bvn offset cs (a ++ (id1, p1) :: b) cost =
      obstacleLoop T bvn offset cs (a ++ (id2, p2) :: b) cost := by
  rw [obstacleLoop_append, obstacleLoop_append]
  congr 1
  funext c
  simp only [obstacleLoop, h]

/-- An obstacle whose inner loop leaves the running total as it is can be dropped from the
mapping. -/
theorem obstacleLoop_drop (T : Trig α) (bvn : Integrator α) (offset : Vector2d α)
    (cs : CartesianSample α) (a b : List (Int × PredictedObject α)) (id : Int)
    (p : PredictedObject α)
    (h : ∀ cost : α, timeLoop T bvn offset cs p 1 cost = some cost) (cost : α) :
    obstacleLoop T bvn offset cs (a ++ (id, p) :: b) cost =
      obstacleLoop T bvn offset cs (a ++ b) cost := by
  rw [obstacleLoop_append, obstacleLoop_append]
  congr 1
  funext c
  simp only [obstacleLoop, h]

/-- The same mapping evaluated on two samples on which every inner loop agrees. -/
theorem obstacleLoop_congr (T : Trig α) (bvn : Integrator α) (offset : Vector2d α)
    (cs1 cs2 : CartesianSample α)
    (h : ∀ (p : PredictedObject α) (cost : α),
      timeLoop T bvn offset cs1 p 1 cost = timeLoop T bvn offset cs2 p 1 cost) :
    ∀ (preds : List (Int × PredictedObject α)) (cost : α),
      obstacleLoop T bvn offset cs1 preds cost = obstacleLoop T bvn offset cs2 preds cost := by
  intro preds
  induction preds with
  | nil => intro cost; rfl
  | cons e rest ih =>
    intro cost
    obtain ⟨id, prediction⟩ := e
    simp only [obstacleLoop, h]
    cases timeLoop T bvn offset cs2 prediction 1 cost with
    | none => rfl
    | some c => exact ih c

theorem timeLoop_short_path (T : Trig α) (bvn : Integrator α) (offset : Vector2d α)
    (cs : CartesianSample α) (p : PredictedObject α) (h : p.predictedPath.length ≤ 1)
    (cost : α) : timeLoop T bvn offset cs p 1 cost = some cost := by
  rw [timeLoop]
  have hm : 1 ≥ p.predictedPath.length := h
  by_cases h1 : 1 < cs.x.length
  · simp only [h1, dite_true, hm, ite_true]
  · simp only [h1, dite_false]

theorem integrate_nonneg (T : Trig α) (bvn : Integrator α) (pose : PoseWithCovariance α)
    (pos offset : Vector2d α) (orientation : α) :
    0 ≤ integrate T bvn pose pos offset orientation := by
  unfold integrate
  exact abs_nonneg _

theorem stepContribution_nonneg (T : Trig α) (bvn : Integrator α) (offset : Vector2d α)
    (xi yi th : α) (pose : PoseWithCovariance α) :
    0 ≤ stepContribution T bvn offset xi yi th pose := by
  unfold stepContribution
  simp only
  split_ifs
  · exact le_refl 0
  · exact integrate_nonneg T bvn pose _ offset th

theorem specObstacleCost_nonneg (T : Trig α) (bvn : Integrator α) (offset : Vector2d α)
    (cs : CartesianSample α) (p : PredictedObject α) :
    0 ≤ specObstacleCost T bvn offset cs p := by
  unfold specObstacleCost
  exact Finset.sum_nonneg (fun i _ => stepContribution_nonneg T bvn offset _ _ _ _)

theorem specRawCost_nonneg (T : Trig α) (bvn : Integrator α)
    (s : CalculateCollisionProbabilityFast α) (trajectory : TrajectorySample α) :
    0 ≤ specRawCost T bvn s trajectory := by
  unfold specRawCost
  apply List.sum_nonneg
  intro c hc
  rw [List.mem_map] at hc
  obtain ⟨e, -, rfl⟩ := hc
  exact specObstacleCost_nonneg T bvn _ _ e.2

end Proofs

section RealProofs

open MeasureTheory

/-! ### Rotations over the reals -/

theorem rotation_compose (theta phi : ℝ) :
    (Rotation2D.mk (theta + phi)).inverse.toRotationMatrix realTrig *
      (Rotation2D.mk phi).toRotationMatrix realTrig =
    (Rotation2D.mk theta).inverse.toRotationMatrix realTrig := by
  have hc : Real.cos (-theta) = Real.cos (-(theta + phi) + phi) := by ring_nf
  have hs : Real.sin (-theta) = Real.sin (-(theta + phi) + phi) := by ring_nf
  simp only [Rotation2D.inverse, Rotation2D.toRotationMatrix, realTrig, Matrix2d.mul_def,
    Matrix2d.mul, hc, hs, Real.cos_add, Real.sin_add]
  congr 1 <;> ring

theorem conj_conj (a b s : Matrix2d ℝ) :
    a * (b * s * b.transpose) * a.transpose = (a * b) * s * (a * b).transpose := by
  simp only [Matrix2d.mul_def, Matrix2d.mul, Matrix2d.transpose]
  congr 1 <;> ring

theorem inverse_apply_apply (theta : ℝ) (v : Vector2d ℝ) :
    (Rotation2D.mk theta).inverse.apply realTrig ((Rotation2D.mk theta).apply realTrig v) = v := by
  obtain ⟨a, b⟩ := v
  simp only [Rotation2D.inverse, Rotation2D.apply, Rotation2D.toRotationMatrix, realTrig,
    Matrix2d.mulVec, Real.cos_neg, Real.sin_neg, neg_neg]
  have h := Real.cos_sq_add_sin_sq theta
  congr 1
  · linear_combination a * h
  · linear_combination b * h

/-- The query that `integrate` sends to the integrator when the ego position coincides with
the obstacle mean does not change when heading and covariance are rotated together. -/
theorem integrate_rotate_coincident (bvn : Integrator ℝ) (pose : PoseWithCovariance ℝ)
    (offset : Vector2d ℝ) (theta phi : ℝ) :
    integrate realTrig bvn (pose.rotateCovariance realTrig phi) pose.position offset
        (theta + phi) =
      integrate realTrig bvn pose pose.position offset theta := by
  obtain ⟨⟨vx, vy⟩, S⟩ := pose
  obtain ⟨ox, oy⟩ := offset
  have hcov := conj_conj ((Rotation2D.mk (theta + phi)).inverse.toRotationMatrix realTrig)
    ((Rotation2D.mk phi).toRotationMatrix realTrig) S
  rw [rotation_compose] at hcov
  have hz : (Vector2d.mk vx vy - Vector2d.mk vx vy : Vector2d ℝ) = ⟨0, 0⟩ := by
    simp [Vector2d.sub_mk]
  have hplus : ∀ w : Vector2d ℝ, (⟨0, 0⟩ : Vector2d ℝ) + w = w := by
    intro w; obtain ⟨a, b⟩ := w; simp [Vector2d.add_mk]
  have hminus : ∀ (t : ℝ) (w : Vector2d ℝ),
      (Rotation2D.mk t).inverse.apply realTrig ((⟨0, 0⟩ : Vector2d ℝ) - (Rotation2D.mk t).apply realTrig w)
        = (⟨0, 0⟩ : Vector2d ℝ) - w := by
    intro t w
    obtain ⟨a, b⟩ := w
    simp only [Rotation2D.inverse, Rotation2D.apply, Rotation2D.toRotationMatrix, realTrig,
      Matrix2d.mulVec, Real.cos_neg, Real.sin_neg, neg_neg, Vector2d.sub_mk]
    have h := Real.cos_sq_add_sin_sq t
    congr 1
    · linear_combination (-a) * h
    · linear_combination (-b) * h
  simp only [integrate, PoseWithCovariance.rotateCovariance, hz, hplus, hminus,
    inverse_apply_apply, hcov]

theorem paired_rotate (bvn : Integrator ℝ) (phi : ℝ) (offset : Vector2d ℝ)
    (cs : CartesianSample ℝ) (prediction : PredictedObject ℝ) (hwf : cs.WellFormed)
    (i : Nat) (hi : 1 ≤ i) (hn : i < cs.x.length) (hm : i < prediction.predictedPath.length)
    (hco : cullTest offset ⟨cs.x.getD i 0, cs.y.getD i 0⟩
        (prediction.predictedPath.getD (i - 1) PoseWithCovariance.origin).position ∨
      (⟨cs.x.getD i 0, cs.y.getD i 0⟩ : Vector2d ℝ) =
        (prediction.predictedPath.getD (i - 1) PoseWithCovariance.origin).position) :
    pairedContribution realTrig bvn offset
        { cs with theta := cs.theta.map (fun th => th + phi) }
        ⟨prediction.predictedPath.map (fun pose => pose.rotateCovariance realTrig phi)⟩ i =
      pairedContribution realTrig bvn offset cs prediction i := by
  have ht : i < cs.theta.length := by rw [hwf.2]; exact hn
  have hp : i - 1 < prediction.predictedPath.length := by omega
  unfold pairedContribution
  simp only [getD_map_of_lt (fun th => th + phi) cs.theta i 0 0 ht,
    getD_map_of_lt (fun pose => pose.rotateCovariance realTrig phi)
      prediction.predictedPath (i - 1) PoseWithCovariance.origin PoseWithCovariance.origin hp]
  unfold stepContribution
  have hpos : ∀ pose : PoseWithCovariance ℝ,
      (pose.rotateCovariance realTrig phi).position = pose.position := fun _ => rfl
  simp only [hpos]
  rcases hco with hc | hc
  · unfold cullTest at hc
    simp only [hc, ite_true]
  · split_ifs with h
    · rfl
    · rw [hc]
      exact integrate_rotate_coincident bvn _ offset _ phi

theorem Rotation2D.apply_add (r : Rotation2D ℝ) (a b : Vector2d ℝ) :
    r.apply realTrig (a + b) = r.apply realTrig a + r.apply realTrig b := by
  obtain ⟨a1, a2⟩ := a
  obtain ⟨b1, b2⟩ := b
  simp only [Rotation2D.apply, Matrix2d.mulVec, Vector2d.add_mk]
  congr 1 <;> ring

theorem Rotation2D.apply_sub (r : Rotation2D ℝ) (a b : Vector2d ℝ) :
    r.apply realTrig (a - b) = r.apply realTrig a - r.apply realTrig b := by
  obtain ⟨a1, a2⟩ := a
  obtain ⟨b1, b2⟩ := b
  simp only [Rotation2D.apply, Matrix2d.mulVec, Vector2d.sub_mk]
  congr 1 <;> ring

/-- The query that `integrate` sends to the integrator, with the forward and the inverse
rotation of the offset cancelled. -/
theorem integrate_query (bvn : Integrator ℝ) (pose : PoseWithCovariance ℝ)
    (pos offset : Vector2d ℝ) (theta : ℝ) :
    integrate realTrig bvn pose pos offset theta =
      |bvn ⟨(Rotation2D.mk theta).inverse.apply realTrig (pos - pose.position) + offset,
            (Rotation2D.mk theta).inverse.apply realTrig (pos - pose.position) - offset⟩
          Vector2d.Zero
          ((Rotation2D.mk theta).inverse.toRotationMatrix realTrig * pose.covariance *
            ((Rotation2D.mk theta).inverse.toRotationMatrix realTrig).transpose)| := by
  simp only [integrate, Rotation2D.apply_add, Rotation2D.apply_sub, inverse_apply_apply]

/-- The value of `integrate` at heading 0 -/
theorem integrate_heading_zero (bvn : Integrator ℝ) (pose : PoseWithCovariance ℝ)
    (pos offset : Vector2d ℝ) :
    integrate realTrig bvn pose pos offset 0 =
      |bvn ⟨⟨pos.x - pose.position.x + offset.x, pos.y - pose.position.y + offset.y⟩,
            ⟨pos.x - pose.position.x - offset.x, pos.y - pose.position.y - offset.y⟩⟩
          Vector2d.Zero pose.covariance| := by
  obtain ⟨⟨vx, vy⟩, ⟨a, b, c, d⟩⟩ := pose
  obtain ⟨px, py⟩ := pos
  obtain ⟨ox, oy⟩ := offset
  simp [integrate, Rotation2D.inverse, Rotation2D.apply, Rotation2D.toRotationMatrix,
    realTrig, Matrix2d.mulVec, Vector2d.sub_mk, Vector2d.add_mk, Matrix2d.transpose,
    Matrix2d.mul_def, Matrix2d.mul]

theorem conj_det (theta : ℝ) (S : Matrix2d ℝ) :
    ((Rotation2D.mk theta).inverse.toRotationMatrix realTrig * S *
      ((Rotation2D.mk theta).inverse.toRotationMatrix realTrig).transpose).det = S.det := by
  obtain ⟨a, b, b1, c⟩ := S
  simp only [Rotation2D.inverse, Rotation2D.toRotationMatrix, realTrig, Matrix2d.transpose,
    Matrix2d.mul_def, Matrix2d.mul, Matrix2d.det, Real.cos_neg, Real.sin_neg, neg_neg]
  have h := Real.cos_sq_add_sin_sq theta
  have h2 : (Real.cos theta ^ 2 + Real.sin theta ^ 2) ^ 2 = 1 := by rw [h]; norm_num
  linear_combination (a * c - b * b1) * h2

theorem integrateBox_eq (pose : PoseWithCovariance ℝ) (pos offset : Vector2d ℝ) (theta : ℝ) :
    integrateBox realTrig pose pos offset theta =
      ⟨(Rotation2D.mk theta).inverse.apply realTrig (pos - pose.position) + offset,
        (Rotation2D.mk theta).inverse.apply realTrig (pos - pose.position) - offset⟩ := by
  simp only [integrateBox, Rotation2D.apply_add, Rotation2D.apply_sub, inverse_apply_apply]

theorem inverse_mul_self (theta : ℝ) :
    (Rotation2D.mk theta).inverse.toRotationMatrix realTrig *
      (Rotation2D.mk theta).toRotationMatrix realTrig = Matrix2d.identity := by
  simp only [Rotation2D.inverse, Rotation2D.toRotationMatrix, realTrig, Matrix2d.mul_def,
    Matrix2d.mul, Matrix2d.identity, Real.cos_neg, Real.sin_neg, neg_neg]
  have h := Real.cos_sq_add_sin_sq theta
  congr 1
  · linear_combination h
  · ring
  · ring
  · linear_combination h

theorem self_mul_inverse (theta : ℝ) :
    (Rotation2D.mk theta).toRotationMatrix realTrig *
      (Rotation2D.mk theta).inverse.toRotationMatrix realTrig = Matrix2d.identity := by
  simp only [Rotation2D.inverse, Rotation2D.toRotationMatrix, realTrig, Matrix2d.mul_def,
    Matrix2d.mul, Matrix2d.identity, Real.cos_neg, Real.sin_neg, neg_neg]
  have h := Real.cos_sq_add_sin_sq theta
  congr 1
  · linear_combination h
  · ring
  · ring
  · linear_combination h

theorem integrateCov_eq (pose : PoseWithCovariance ℝ) (theta : ℝ) :
    integrateCov realTrig pose theta =
      ⟨Real.cos theta ^ 2 * pose.covariance.m00 +
          Real.cos theta * Real.sin theta * (pose.covariance.m01 + pose.covariance.m10) +
          Real.sin theta ^ 2 * pose.covariance.m11,
        Real.cos theta ^ 2 * pose.covariance.m01 - Real.sin theta ^ 2 * pose.covariance.m10 +
          Real.cos theta * Real.sin theta * (pose.covariance.m11 - pose.covariance.m00),
        Real.cos theta ^ 2 * pose.covariance.m10 - Real.sin theta ^ 2 * pose.covariance.m01 +
          Real.cos theta * Real.sin theta * (pose.covariance.m11 - pose.covariance.m00),
        Real.sin theta ^ 2 * pose.covariance.m00 -
          Real.cos theta * Real.sin theta * (pose.covariance.m01 + pose.covariance.m10) +
          Real.cos theta ^ 2 * pose.covariance.m11⟩ := by
  obtain ⟨v, ⟨a, b, b1, c⟩⟩ := pose
  simp only [integrateCov, Rotation2D.inverse, Rotation2D.toRotationMatrix, realTrig,
    Matrix2d.transpose, Matrix2d.mul_def, Matrix2d.mul, Real.cos_neg, Real.sin_neg, neg_neg]
  congr 1 <;> ring

/-! ### The cull box and the footprint -/

theorem axisTerm_le_sq (l c p : ℝ) (hl : 0 ≤ l) :
    AlignedBox2d.axisTerm (c - l) (c + l) (c + p) ≤ p * p := by
  unfold AlignedBox2d.axisTerm
  split_ifs with h1 h2
  · nlinarith
  · nlinarith
  · exact mul_self_nonneg p

theorem footprint_sqdist_le (L W : ℝ) (u : Vector2d ℝ) (theta : ℝ) (v : Vector2d ℝ)
    (h : inFootprint realTrig L W u theta v) :
    (AlignedBox2d.mk (u - ⟨L / 2, W / 2⟩) (u + ⟨L / 2, W / 2⟩)).squaredExteriorDistance v
      ≤ (L / 2) ^ 2 + (W / 2) ^ 2 := by
  obtain ⟨a, b, ha, hb, rfl⟩ := h
  obtain ⟨ux, uy⟩ := u
  have hl : 0 ≤ L / 2 := le_trans (abs_nonneg a) ha
  have hw : 0 ≤ W / 2 := le_trans (abs_nonneg b) hb
  simp only [Vector2d.sub_mk, Vector2d.add_mk, AlignedBox2d.squaredExteriorDistance,
    Rotation2D.apply, Rotation2D.toRotationMatrix, Matrix2d.mulVec, realTrig, zero_add]
  have h1 := axisTerm_le_sq (L / 2) ux (Real.cos theta * a + -Real.sin theta * b) hl
  have h2 := axisTerm_le_sq (W / 2) uy (Real.sin theta * a + Real.cos theta * b) hw
  have ha2 : a ^ 2 ≤ (L / 2) ^ 2 := by
    have := abs_le.mp ha
    nlinarith
  have hb2 : b ^ 2 ≤ (W / 2) ^ 2 := by
    have := abs_le.mp hb
    nlinarith
  have hcs := Real.cos_sq_add_sin_sq theta
  have hrot : (Real.cos theta * a + -Real.sin theta * b) * (Real.cos theta * a + -Real.sin theta * b)
      + (Real.sin theta * a + Real.cos theta * b) * (Real.sin theta * a + Real.cos theta * b)
      = a ^ 2 + b ^ 2 := by
    have : (Real.cos theta * a + -Real.sin theta * b) * (Real.cos theta * a + -Real.sin theta * b)
      + (Real.sin theta * a + Real.cos theta * b) * (Real.sin theta * a + Real.cos theta * b)
      = (Real.cos theta ^ 2 + Real.sin theta ^ 2) * (a ^ 2 + b ^ 2) := by ring
    rw [this, hcs, one_mul]
  linarith

theorem bvnDensity_continuous (cov : Matrix2d ℝ) (mean : Vector2d ℝ) :
    Continuous (fun p : ℝ × ℝ => bvnDensity cov (p.1 - mean.x, p.2 - mean.y)) := by
  unfold bvnDensity
  fun_prop

theorem region_compact (box : AlignedBox2d ℝ) : IsCompact box.region :=
  isCompact_uIcc.prod isCompact_uIcc

theorem region_measurable (box : AlignedBox2d ℝ) : MeasurableSet box.region :=
  measurableSet_uIcc.prod measurableSet_uIcc

theorem region_volume (box : AlignedBox2d ℝ) :
    (volume box.region).toReal = |box.max.x - box.min.x| * |box.max.y - box.min.y| := by
  unfold AlignedBox2d.region
  rw [Measure.volume_eq_prod, Measure.prod_prod, ENNReal.toReal_mul]
  simp [Set.uIcc, Real.volume_Icc, max_sub_min_eq_abs]

theorem integral_const_region (box : AlignedBox2d ℝ) (c : ℝ) :
    ∫ _p in box.region, c = c * (|box.max.x - box.min.x| * |box.max.y - box.min.y|) := by
  rw [setIntegral_const, region_volume, smul_eq_mul, mul_comm]

theorem const_integrableOn_region (box : AlignedBox2d ℝ) (c : ℝ) :
    IntegrableOn (fun _p : ℝ × ℝ => c) box.region volume :=
  integrableOn_const.mpr (Or.inr (region_compact box).measure_lt_top)

theorem bvnMass_ge (box : AlignedBox2d ℝ) (mean : Vector2d ℝ) (cov : Matrix2d ℝ) (c : ℝ)
    (h : ∀ p ∈ box.region, c ≤ bvnDensity cov (p.1 - mean.x, p.2 - mean.y)) :
    c * (|box.max.x - box.min.x| * |box.max.y - box.min.y|) ≤ bvnMass box mean cov := by
  unfold bvnMass
  rw [← integral_const_region box c]
  exact setIntegral_mono_on (const_integrableOn_region box c)
    ((bvnDensity_continuous cov mean).continuousOn.integrableOn_compact (region_compact box))
    (region_measurable box) h

theorem bvnMass_le (box : AlignedBox2d ℝ) (mean : Vector2d ℝ) (cov : Matrix2d ℝ) (c : ℝ)
    (h : ∀ p ∈ box.region, bvnDensity cov (p.1 - mean.x, p.2 - mean.y) ≤ c) :
    bvnMass box mean cov ≤ c * (|box.max.x - box.min.x| * |box.max.y - box.min.y|) := by
  unfold bvnMass
  rw [← integral_const_region box c]
  exact setIntegral_mono_on
    ((bvnDensity_continuous cov mean).continuousOn.integrableOn_compact (region_compact box))
    (const_integrableOn_region box c) (region_measurable box) h

theorem bvnDensity_nonneg (cov : Matrix2d ℝ) (p : ℝ × ℝ) : 0 ≤ bvnDensity cov p := by
  unfold bvnDensity
  have h1 : 0 ≤ 2 * Real.pi * Real.sqrt (cov.m00 * cov.m11 - cov.m01 * cov.m10) :=
    mul_nonneg (mul_nonneg (by norm_num) Real.pi_pos.le) (Real.sqrt_nonneg _)
  exact mul_nonneg (div_nonneg zero_le_one h1) (Real.exp_pos _).le

theorem bvnMass_nonneg (box : AlignedBox2d ℝ) (mean : Vector2d ℝ) (cov : Matrix2d ℝ) :
    0 ≤ bvnMass box mean cov := by
  have := bvnMass_ge box mean cov 0 (fun p _ => bvnDensity_nonneg cov _)
  simpa using this

theorem zero_x : (Vector2d.Zero : Vector2d ℝ).x = 0 := rfl

theorem zero_y : (Vector2d.Zero : Vector2d ℝ).y = 0 := rfl

/-- The mass of `exp (-50 x^2)` on `[-a, a]`, `a ≥ 1/2`, is at least the whole Gaussian integral minus the
part bounded by `exp (-25/4) * exp (-25 x^2)`. -/
theorem gaussian_core_ge (a : ℝ) (ha : 1 / 2 ≤ a) :
    Real.sqrt (Real.pi / 50) - Real.exp (-(25 / 4)) * Real.sqrt (Real.pi / 25) ≤
      ∫ x in Set.uIcc a (-a), Real.exp (-50 * x ^ 2) := by
  have hf : Integrable (fun x : ℝ => Real.exp (-50 * x ^ 2)) :=
    integrable_exp_neg_mul_sq (by norm_num)
  have hg : Integrable (fun x : ℝ => Real.exp (-(25 / 4)) * Real.exp (-25 * x ^ 2)) :=
    (integrable_exp_neg_mul_sq (by norm_num)).const_mul _
  have hsplit := integral_add_compl (measurableSet_uIcc : MeasurableSet (Set.uIcc a (-a))) hf
  rw [integral_gaussian] at hsplit
  have htail : ∫ x in (Set.uIcc a (-a))ᶜ, Real.exp (-50 * x ^ 2) ≤
      Real.exp (-(25 / 4)) * Real.sqrt (Real.pi / 25) := by
    have h1 : ∫ x in (Set.uIcc a (-a))ᶜ, Real.exp (-50 * x ^ 2) ≤
        ∫ x in (Set.uIcc a (-a))ᶜ, Real.exp (-(25 / 4)) * Real.exp (-25 * x ^ 2) := by
      apply setIntegral_mono_on hf.integrableOn hg.integrableOn measurableSet_uIcc.compl
      intro x hx
      rw [← Real.exp_add]
      apply Real.exp_le_exp.mpr
      have hx2 : 1 / 4 ≤ x ^ 2 := by
        simp only [Set.mem_compl_iff, Set.mem_uIcc, not_or, not_and, not_le] at hx
        by_cases h : x ≤ a
        · have : x < -a := by
            by_contra hc
            exact absurd (hx.2 (not_lt.mp hc)) (not_lt.mpr h)
          nlinarith
        · nlinarith [not_le.mp h]
      linarith
    have h2 : ∫ x in (Set.uIcc a (-a))ᶜ, Real.exp (-(25 / 4)) * Real.exp (-25 * x ^ 2) ≤
        ∫ x, Real.exp (-(25 / 4)) * Real.exp (-25 * x ^ 2) :=
      setIntegral_le_integral hg (Filter.Eventually.of_forall (fun x => by positivity))
    have h3 : ∫ x : ℝ, Real.exp (-(25 / 4)) * Real.exp (-25 * x ^ 2) =
        Real.exp (-(25 / 4)) * Real.sqrt (Real.pi / 25) := by
      rw [integral_mul_left, integral_gaussian]
    rw [h3] at h2
    exact le_trans h1 h2
  linarith

theorem gaussian_core_le (a : ℝ) :
    ∫ x in Set.uIcc a (-a), Real.exp (-50 * x ^ 2) ≤ Real.sqrt (Real.pi / 50) := by
  have hf : Integrable (fun x : ℝ => Real.exp (-50 * x ^ 2)) :=
    integrable_exp_neg_mul_sq (by norm_num)
  have := setIntegral_le_integral (s := Set.uIcc a (-a)) hf
    (Filter.Eventually.of_forall (fun x => by positivity))
  rw [integral_gaussian] at this
  exact this

theorem gaussian_tail_small :
    Real.exp (-(25 / 4)) * Real.sqrt (Real.pi / 25) ≤ 1 / 250 * Real.sqrt (Real.pi / 50) := by
  have hsq : Real.sqrt (Real.pi / 25) ≤ 3 / 2 * Real.sqrt (Real.pi / 50) := by
    have h : Real.pi / 25 ≤ (3 / 2) ^ 2 * (Real.pi / 50) := by
      have := Real.pi_pos
      nlinarith
    calc Real.sqrt (Real.pi / 25) ≤ Real.sqrt ((3 / 2) ^ 2 * (Real.pi / 50)) :=
          Real.sqrt_le_sqrt h
      _ = 3 / 2 * Real.sqrt (Real.pi / 50) := by
          rw [Real.sqrt_mul (by positivity), Real.sqrt_sq (by norm_num)]
  have hexp : Real.exp (-(25 / 4)) ≤ 1 / 375 := by
    have h6 : (375 : ℝ) ≤ Real.exp 6 := by
      have h1 : (2.7 : ℝ) ≤ Real.exp 1 := by
        have := Real.exp_one_gt_d9
        linarith
      have : Real.exp 6 = Real.exp 1 ^ 6 := by
        rw [← Real.exp_nat_mul]
        norm_num
      rw [this]
      calc (375 : ℝ) ≤ 2.7 ^ 6 := by norm_num
        _ ≤ Real.exp 1 ^ 6 := pow_le_pow_left₀ (by norm_num) h1 6
    have h625 : Real.exp 6 ≤ Real.exp (25 / 4) := Real.exp_le_exp.mpr (by norm_num)
    rw [Real.exp_neg, ← one_div]
    exact one_div_le_one_div_of_le (by norm_num) (le_trans h6 h625)
  have hG : 0 ≤ Real.sqrt (Real.pi / 50) := Real.sqrt_nonneg _
  calc Real.exp (-(25 / 4)) * Real.sqrt (Real.pi / 25)
      ≤ 1 / 375 * (3 / 2 * Real.sqrt (Real.pi / 50)) :=
        mul_le_mul hexp hsq (Real.sqrt_nonneg _) (by norm_num)
    _ = 1 / 250 * Real.sqrt (Real.pi / 50) := by ring

/-- The bivariate normal mass of the scenario query lies within 0.01 of 1. -/
theorem scenario_mass_near_one :
    |bvnMass ⟨⟨1, 1 / 2⟩, ⟨-1, -(1 / 2)⟩⟩ Vector2d.Zero ⟨0.01, 0, 0, 0.01⟩ - 1| ≤ 0.01 := by
  have hdens : ∀ p : ℝ × ℝ,
      bvnDensity ⟨0.01, 0, 0, 0.01⟩ (p.1 - (Vector2d.Zero : Vector2d ℝ).x,
        p.2 - (Vector2d.Zero : Vector2d ℝ).y) =
      50 / Real.pi * (Real.exp (-50 * p.1 ^ 2) * Real.exp (-50 * p.2 ^ 2)) := by
    intro p
    have hsqrt : Real.sqrt ((0.01 : ℝ) * 0.01 - 0 * 0) = 0.01 := by
      rw [show (0.01 : ℝ) * 0.01 - 0 * 0 = 0.01 * 0.01 by norm_num]
      exact Real.sqrt_mul_self (by norm_num)
    simp only [bvnDensity, zero_x, zero_y, sub_zero, hsqrt]
    rw [← Real.exp_add]
    have hpi := Real.pi_pos
    congr 1
    · field_simp
      ring
    · congr 1
      norm_num
      ring
  have hmass : bvnMass ⟨⟨1, 1 / 2⟩, ⟨-1, -(1 / 2)⟩⟩ Vector2d.Zero ⟨0.01, 0, 0, 0.01⟩ =
      50 / Real.pi * ((∫ x in Set.uIcc (1 : ℝ) (-1), Real.exp (-50 * x ^ 2)) *
        ∫ y in Set.uIcc (1 / 2 : ℝ) (-(1 / 2)), Real.exp (-50 * y ^ 2)) := by
    unfold bvnMass AlignedBox2d.region
    simp only [hdens]
    rw [integral_mul_left, Measure.volume_eq_prod]
    exact congrArg _ (setIntegral_prod_mul (fun x : ℝ => Real.exp (-50 * x ^ 2))
      (fun y : ℝ => Real.exp (-50 * y ^ 2)) _ _)
  rw [hmass]
  have hA1 := gaussian_core_ge 1 (by norm_num)
  have hA2 := gaussian_core_le 1
  have hB1 := gaussian_core_ge (1 / 2) (le_refl _)
  have hB2 := gaussian_core_le (1 / 2)
  have hT := gaussian_tail_small
  have hG0 : 0 ≤ Real.sqrt (Real.pi / 50) := Real.sqrt_nonneg _
  have hG2 : Real.sqrt (Real.pi / 50) * Real.sqrt (Real.pi / 50) = Real.pi / 50 :=
    Real.mul_self_sqrt (by positivity)
  generalize Real.sqrt (Real.pi / 50) = G at *
  generalize (∫ x in Set.uIcc (1 : ℝ) (-1), Real.exp (-50 * x ^ 2)) = A at *
  generalize (∫ y in Set.uIcc (1 / 2 : ℝ) (-(1 / 2)), Real.exp (-50 * y ^ 2)) = B at *
  have hpi := Real.pi_pos
  have hAlo : 249 / 250 * G ≤ A := by linarith
  have hBlo : 249 / 250 * G ≤ B := by linarith
  have hk : 50 / Real.pi * (G * G) = 1 := by
    rw [hG2]
    field_simp
  have hlo : 50 / Real.pi * ((249 / 250 * G) * (249 / 250 * G)) ≤ 50 / Real.pi * (A * B) := by
    apply mul_le_mul_of_nonneg_left _ (by positivity)
    exact mul_le_mul hAlo hBlo (by positivity) (le_trans (by positivity) hAlo)
  have hhi : 50 / Real.pi * (A * B) ≤ 50 / Real.pi * (G * G) := by
    apply mul_le_mul_of_nonneg_left _ (by positivity)
    exact mul_le_mul hA2 hB2 (le_trans (by positivity) hBlo) hG0
  have hlo2 : 50 / Real.pi * ((249 / 250 * G) * (249 / 250 * G)) =
      (249 / 250) ^ 2 * (50 / Real.pi * (G * G)) := by ring
  rw [hlo2, hk] at hlo
  rw [hk] at hhi
  rw [abs_le]
  constructor <;> norm_num at hlo ⊢ <;> linarith

/-! ### Marginals of the bivariate normal density -/

theorem rotation_example_cost (S : Matrix2d ℝ) :
    rawCost realTrig bvnMass ⟨"prob", 1, [(0, ⟨[⟨⟨0, 0⟩, S⟩, ⟨⟨0, 0⟩, S⟩]⟩)], 1, 1⟩
        ⟨⟨[0, 3], [0, 0], [0, 0]⟩, []⟩ =
      some |bvnMass ⟨⟨3 + 1 / 2, 1 / 2⟩, ⟨3 - 1 / 2, -(1 / 2)⟩⟩ Vector2d.Zero S| := by
  rw [rawCost_eq realTrig bvnMass _ _ ⟨rfl, rfl⟩]
  have hc : ¬ (AlignedBox2d.mk ((⟨3, 0⟩ : Vector2d ℝ) - ⟨1 / 2, 1 / 2⟩)
      ((⟨3, 0⟩ : Vector2d ℝ) + ⟨1 / 2, 1 / 2⟩)).squaredExteriorDistance ⟨0, 0⟩ > 50 := by
    simp only [Vector2d.sub_mk, Vector2d.add_mk, AlignedBox2d.squaredExteriorDistance,
      AlignedBox2d.axisTerm]
    norm_num
  have hstep : pairedContribution realTrig bvnMass ⟨1 / 2, 1 / 2⟩ ⟨[0, 3], [0, 0], [0, 0]⟩
      ⟨[⟨⟨0, 0⟩, S⟩, ⟨⟨0, 0⟩, S⟩]⟩ 1 =
      |bvnMass ⟨⟨3 + 1 / 2, 1 / 2⟩, ⟨3 - 1 / 2, -(1 / 2)⟩⟩ Vector2d.Zero S| := by
    simp only [pairedContribution, stepContribution, List.getD_cons_succ,
      List.getD_cons_zero, Nat.sub_self, hc, ite_false]
    rw [integrate_heading_zero]
    norm_num
  congr 1
  simp only [specRawCost, specObstacleCost, List.map_cons, List.map_nil, List.sum_cons,
    List.sum_nil, add_zero, List.length_cons, List.length_nil]
  rw [show min (0 + 1 + 1 - 1) (0 + 1 + 1 - 1) = 1 from rfl, Finset.Icc_self,
    Finset.sum_singleton]
  exact hstep

theorem rotation_example_rotated_cost (S : Matrix2d ℝ) :
    rawCost realTrig bvnMass
        (CalculateCollisionProbabilityFast.rotateCovariances realTrig (Real.pi / 2)
          ⟨"prob", 1, [(0, ⟨[⟨⟨0, 0⟩, S⟩, ⟨⟨0, 0⟩, S⟩]⟩)], 1, 1⟩)
        (TrajectorySample.rotateHeadings (Real.pi / 2) ⟨⟨[0, 3], [0, 0], [0, 0]⟩, []⟩) =
      some |bvnMass ⟨⟨1 / 2, -3 + 1 / 2⟩, ⟨-(1 / 2), -3 - 1 / 2⟩⟩ Vector2d.Zero S| := by
  rw [rawCost_eq realTrig bvnMass _ _ ⟨rfl, rfl⟩]
  have hc : ¬ (AlignedBox2d.mk ((⟨3, 0⟩ : Vector2d ℝ) - ⟨1 / 2, 1 / 2⟩)
      ((⟨3, 0⟩ : Vector2d ℝ) + ⟨1 / 2, 1 / 2⟩)).squaredExteriorDistance ⟨0, 0⟩ > 50 := by
    simp only [Vector2d.sub_mk, Vector2d.add_mk, AlignedBox2d.squaredExteriorDistance,
      AlignedBox2d.axisTerm]
    norm_num
  have hcov := conj_conj ((Rotation2D.mk (0 + Real.pi / 2)).inverse.toRotationMatrix realTrig)
    ((Rotation2D.mk (Real.pi / 2)).toRotationMatrix realTrig) S
  rw [rotation_compose] at hcov
  have hid : (Rotation2D.mk (0 : ℝ)).inverse.toRotationMatrix realTrig * S *
      ((Rotation2D.mk (0 : ℝ)).inverse.toRotationMatrix realTrig).transpose = S := by
    obtain ⟨a, b, c, d⟩ := S
    simp [Rotation2D.inverse, Rotation2D.toRotationMatrix, realTrig, Matrix2d.transpose,
      Matrix2d.mul_def, Matrix2d.mul]
  rw [hid] at hcov
  have hbox : (Rotation2D.mk (0 + Real.pi / 2)).inverse.apply realTrig
      ((⟨3, 0⟩ : Vector2d ℝ) - ⟨0, 0⟩) = ⟨0, -3⟩ := by
    simp [Rotation2D.inverse, Rotation2D.apply, Rotation2D.toRotationMatrix, realTrig,
      Matrix2d.mulVec, Vector2d.sub_mk]
  have hstep : pairedContribution realTrig bvnMass ⟨1 / 2, 1 / 2⟩
      ⟨[0, 3], [0, 0], [0 + Real.pi / 2, 0 + Real.pi / 2]⟩
      ⟨[PoseWithCovariance.rotateCovariance realTrig (Real.pi / 2) ⟨⟨0, 0⟩, S⟩,
        PoseWithCovariance.rotateCovariance realTrig (Real.pi / 2) ⟨⟨0, 0⟩, S⟩]⟩ 1 =
      |bvnMass ⟨⟨1 / 2, -3 + 1 / 2⟩, ⟨-(1 / 2), -3 - 1 / 2⟩⟩ Vector2d.Zero S| := by
    simp only [pairedContribution, stepContribution, List.getD_cons_succ,
      List.getD_cons_zero, Nat.sub_self, PoseWithCovariance.rotateCovariance, hc, ite_false]
    rw [integrate_query, hbox, hcov]
    simp only [Vector2d.add_mk, Vector2d.sub_mk]
    norm_num
  congr 1
  simp only [specRawCost, specObstacleCost, List.map_cons, List.map_nil, List.sum_cons,
    List.sum_nil, add_zero, List.length_cons, List.length_nil,
    CalculateCollisionProbabilityFast.rotateCovariances, TrajectorySample.rotateHeadings]
  rw [show min (0 + 1 + 1 - 1) (0 + 1 + 1 - 1) = 1 from rfl, Finset.Icc_self,
    Finset.sum_singleton]
  exact hstep

theorem rotation_example_mass_lt :
    bvnMass ⟨⟨1 / 2, -3 + 1 / 2⟩, ⟨-(1 / 2), -3 - 1 / 2⟩⟩ Vector2d.Zero ⟨100, 0, 0, 1⟩ <
      bvnMass ⟨⟨3 + 1 / 2, 1 / 2⟩, ⟨3 - 1 / 2, -(1 / 2)⟩⟩ Vector2d.Zero ⟨100, 0, 0, 1⟩ := by
  have hk : 0 < 1 / (2 * Real.pi * Real.sqrt ((100 : ℝ) * 1 - 0 * 0)) := by
    have : 0 < Real.sqrt ((100 : ℝ) * 1 - 0 * 0) := Real.sqrt_pos.mpr (by norm_num)
    have := Real.pi_pos
    positivity
  have hup := bvnMass_le ⟨⟨1 / 2, -3 + 1 / 2⟩, ⟨-(1 / 2), -3 - 1 / 2⟩⟩ Vector2d.Zero
    ⟨100, 0, 0, 1⟩ (1 / (2 * Real.pi * Real.sqrt ((100 : ℝ) * 1 - 0 * 0)) * Real.exp (-3)) ?_
  have hlo := bvnMass_ge ⟨⟨3 + 1 / 2, 1 / 2⟩, ⟨3 - 1 / 2, -(1 / 2)⟩⟩ Vector2d.Zero
    ⟨100, 0, 0, 1⟩ (1 / (2 * Real.pi * Real.sqrt ((100 : ℝ) * 1 - 0 * 0)) * Real.exp (-1)) ?_
  · have harea1 : |(-(1 / 2) : ℝ) - 1 / 2| * |(-3 - 1 / 2 : ℝ) - (-3 + 1 / 2)| = 1 := by
      norm_num [abs_of_neg]
    have harea2 : |(3 - 1 / 2 : ℝ) - (3 + 1 / 2)| * |(-(1 / 2) : ℝ) - 1 / 2| = 1 := by
      norm_num [abs_of_neg]
    simp only [harea1, harea2] at hup hlo
    have hexp : Real.exp (-3) < Real.exp (-1) := Real.exp_lt_exp.mpr (by norm_num)
    have := mul_lt_mul_of_pos_left hexp hk
    linarith
  · rintro ⟨p1, p2⟩ hp
    simp only [AlignedBox2d.region, Set.mem_prod, Set.mem_uIcc] at hp
    have h1 : 5 / 2 ≤ p1 ∧ p1 ≤ 7 / 2 := by
      rcases hp.1 with h | h <;> constructor <;> linarith [h.1, h.2]
    have h2 : -(1 / 2) ≤ p2 ∧ p2 ≤ 1 / 2 := by
      rcases hp.2 with h | h <;> constructor <;> linarith [h.1, h.2]
    simp only [bvnDensity, zero_x, zero_y, sub_zero]
    apply mul_le_mul_of_nonneg_left _ hk.le
    apply Real.exp_le_exp.mpr
    rw [le_div_iff₀ (by norm_num)]
    nlinarith
  · rintro ⟨p1, p2⟩ hp
    simp only [AlignedBox2d.region, Set.mem_prod, Set.mem_uIcc] at hp
    have h1 : -(1 / 2) ≤ p1 ∧ p1 ≤ 1 / 2 := by
      rcases hp.1 with h | h <;> constructor <;> linarith [h.1, h.2]
    have h2 : -(7 / 2) ≤ p2 ∧ p2 ≤ -(5 / 2) := by
      rcases hp.2 with h | h <;> constructor <;> linarith [h.1, h.2]
    simp only [bvnDensity, zero_x, zero_y, sub_zero]
    apply mul_le_mul_of_nonneg_left _ hk.le
    apply Real.exp_le_exp.mpr
    rw [div_le_iff₀ (by norm_num)]
    nlinarith

theorem scenario_single_entry_cost (T : Trig ℝ) (bvn : Integrator ℝ) (name : String)
    (weight : ℝ) (costs : List (CostEntry ℝ)) (id : Int) (pose : PoseWithCovariance ℝ) :
    evaluateTrajectory T bvn (scenarioStrategy name weight [(id, ⟨[pose]⟩)])
        (scenarioTrajectory costs) =
      some ((scenarioTrajectory costs).addCostValueToList name 0 0) := by
  rw [evaluateTrajectory_eq T bvn _ _ ⟨rfl, rfl⟩]
  have h0 : specRawCost T bvn (scenarioStrategy name weight [(id, ⟨[pose]⟩)])
      (scenarioTrajectory costs) = 0 := by
    simp only [specRawCost, specObstacleCost, scenarioStrategy, scenarioTrajectory,
      List.map_cons, List.map_nil, List.sum_cons, List.sum_nil, add_zero, List.length_cons,
      List.length_nil]
    rfl
  rw [h0, zero_mul]
  rfl

end RealProofs

/-! ## The claims -/

section Claims

open MeasureTheory

variable {α : Type} [LinearOrderedField α]

/-! ### Claim C1 -/

/-- C1: whenever `evaluateTrajectory` returns, the returned trajectory carries the old cost
list followed by exactly one new entry named after the strategy, with the earlier entries
and the x, y and theta sequences untouched; and it does return on every trajectory whose
three coordinate sequences have the same length. -/
theorem C1_appends_one_named_entry (T : Trig α) (bvn : Integrator α)
    (s : CalculateCollisionProbabilityFast α) (trajectory : TrajectorySample α) :
    (trajectory.m_cartesianSample.WellFormed →
      ∃ t1, evaluateTrajectory T bvn s trajectory = some t1) ∧
    (∀ t1, evaluateTrajectory T bvn s trajectory = some t1 →
      (∃ e : CostEntry α, t1.m_costList = trajectory.m_costList ++ [e] ∧
        e.name = s.m_functionName) ∧
      t1.m_cartesianSample.x = trajectory.m_cartesianSample.x ∧
      t1.m_cartesianSample.y = trajectory.m_cartesianSample.y ∧
      t1.m_cartesianSample.theta = trajectory.m_cartesianSample.theta) := by
  refine ⟨fun hwf => ⟨_, evaluateTrajectory_eq T bvn s trajectory hwf⟩, ?_⟩
  intro t1 h
  obtain ⟨cost, -, rfl⟩ := (evaluateTrajectory_some_iff T bvn s trajectory t1).mp h
  exact ⟨⟨⟨s.m_functionName, cost, cost * s.m_costWeight⟩, rfl, rfl⟩, rfl, rfl, rfl⟩

/-- Witness for C1: a trajectory of three states that already carries a cost entry. -/
theorem C1_appends_one_named_entry_witness :
    ∃ t1, evaluateTrajectory headingZeroTrig areaIntegrator
      (scenarioStrategy "prob" 3 [(7, ⟨[tightPose 1 0, tightPose 1 0]⟩)])
      (scenarioTrajectory [⟨"jerk", 5, 10⟩]) = some t1 :=
  (C1_appends_one_named_entry headingZeroTrig areaIntegrator
    (scenarioStrategy "prob" 3 [(7, ⟨[tightPose 1 0, tightPose 1 0]⟩)])
    (scenarioTrajectory [⟨"jerk", 5, 10⟩])).1 ⟨rfl, rfl⟩

/-! ### Claim C2 -/

/-- C2: on a trajectory with equal-length x, y, theta the appended raw cost is the sum,
over the obstacles of the mapping and the indices `1 ≤ i ≤ min (n-1) (m-1)`, of the step
contribution of ego state `i` paired with the obstacle pose `i-1`, and the appended
weighted cost is the raw cost times the weight. -/
theorem C2_raw_cost_is_paired_sum (T : Trig α) (bvn : Integrator α)
    (s : CalculateCollisionProbabilityFast α) (trajectory : TrajectorySample α)
    (hwf : trajectory.m_cartesianSample.WellFormed) :
    evaluateTrajectory T bvn s trajectory =
      some (trajectory.addCostValueToList s.m_functionName
        (specRawCost T bvn s trajectory)
        (specRawCost T bvn s trajectory * s.m_costWeight)) :=
  evaluateTrajectory_eq T bvn s trajectory hwf

/-- Witness for C2: the scenario trajectory with one obstacle of two poses at (1,0). -/
theorem C2_raw_cost_is_paired_sum_witness :
    (scenarioTrajectory ([] : List (CostEntry ℚ))).m_cartesianSample.WellFormed ∧
    evaluateTrajectory headingZeroTrig areaIntegrator
        (scenarioStrategy "prob" 3 [(7, ⟨[tightPose 1 0, tightPose 1 0]⟩)])
        (scenarioTrajectory []) =
      some ((scenarioTrajectory []).addCostValueToList "prob"
        (specRawCost headingZeroTrig areaIntegrator
          (scenarioStrategy "prob" 3 [(7, ⟨[tightPose 1 0, tightPose 1 0]⟩)])
          (scenarioTrajectory []))
        (specRawCost headingZeroTrig areaIntegrator
          (scenarioStrategy "prob" 3 [(7, ⟨[tightPose 1 0, tightPose 1 0]⟩)])
          (scenarioTrajectory []) * 3)) :=
  ⟨⟨rfl, rfl⟩, C2_raw_cost_is_paired_sum headingZeroTrig areaIntegrator
    (scenarioStrategy "prob" 3 [(7, ⟨[tightPose 1 0, tightPose 1 0]⟩)])
    (scenarioTrajectory []) ⟨rfl, rfl⟩⟩

/-! ### Claim C3 -/

/-- C3: the cull threshold. At an index `i ≥ 1` where the loop is still running, on a
trajectory with equal-length x, y, theta: when the squared exterior distance from the
obstacle mean to the box `[u - offset, u + offset]` is greater than 50, the inner loop
returns the running total plus the contributions of the later steps only, so this step
contributes exactly 0 whatever the covariance, the heading and the integrator are; when
it is at most 50 (50 included) the inner loop returns the running total plus the value of
`integrate` for this step plus the contributions of the later steps. On a trajectory of
two ego states and one obstacle with two poses, the raw cost appended by
`evaluateTrajectory` is 0 in the first case and the value of `integrate` in the second. -/
theorem C3_cull_threshold (T : Trig α) (bvn : Integrator α) (offset : Vector2d α)
    (cs : CartesianSample α) (prediction : PredictedObject α) (i : Nat) (cost : α)
    (xi yi : α) (pose : PoseWithCovariance α)
    (hwf : cs.WellFormed) (_hi : 1 ≤ i)
    (hx : cs.x[i]? = some xi) (hy : cs.y[i]? = some yi)
    (hm : i < prediction.predictedPath.length)
    (hp : prediction.predictedPath[i - 1]? = some pose) :
    ((AlignedBox2d.mk (Vector2d.mk xi yi - offset)
        (Vector2d.mk xi yi + offset)).squaredExteriorDistance pose.position > 50 →
      timeLoop T bvn offset cs prediction i cost =
        timeLoop T bvn offset cs prediction (i + 1) cost ∧
      timeLoop T bvn offset cs prediction i cost =
        some (cost + 0 +
          ∑ j ∈ Finset.Ico (i + 1) (min cs.x.length prediction.predictedPath.length),
            pairedContribution T bvn offset cs prediction j)) ∧
    ((AlignedBox2d.mk (Vector2d.mk xi yi - offset)
        (Vector2d.mk xi yi + offset)).squaredExteriorDistance pose.position ≤ 50 →
      ∀ th : α, cs.theta[i]? = some th →
        timeLoop T bvn offset cs prediction i cost =
          timeLoop T bvn offset cs prediction (i + 1)
            (cost + integrate T bvn pose ⟨xi, yi⟩ offset th) ∧
        timeLoop T bvn offset cs prediction i cost =
          some (cost + integrate T bvn pose ⟨xi, yi⟩ offset th +
            ∑ j ∈ Finset.Ico (i + 1) (min cs.x.length prediction.predictedPath.length),
              pairedContribution T bvn offset cs prediction j)) ∧
    (∀ (name : String) (weight : α) (id : Int) (next : PoseWithCovariance α)
        (L W x0 y0 t0 th : α) (costs : List (CostEntry α)),
      ((AlignedBox2d.mk (Vector2d.mk xi yi - ⟨L / 2, W / 2⟩)
          (Vector2d.mk xi yi + ⟨L / 2, W / 2⟩)).squaredExteriorDistance pose.position > 50 →
        evaluateTrajectory T bvn ⟨name, weight, [(id, ⟨[pose, next]⟩)], L, W⟩
            ⟨⟨[x0, xi], [y0, yi], [t0, th]⟩, costs⟩ =
          some ⟨⟨[x0, xi], [y0, yi], [t0, th]⟩, costs ++ [⟨name, 0, 0⟩]⟩) ∧
      ((AlignedBox2d.mk (Vector2d.mk xi yi - ⟨L / 2, W / 2⟩)
          (Vector2d.mk xi yi + ⟨L / 2, W / 2⟩)).squaredExteriorDistance pose.position ≤ 50 →
        evaluateTrajectory T bvn ⟨name, weight, [(id, ⟨[pose, next]⟩)], L, W⟩
            ⟨⟨[x0, xi], [y0, yi], [t0, th]⟩, costs⟩ =
          some ⟨⟨[x0, xi], [y0, yi], [t0, th]⟩,
            costs ++ [⟨name, integrate T bvn pose ⟨xi, yi⟩ ⟨L / 2, W / 2⟩ th,
              integrate T bvn pose ⟨xi, yi⟩ ⟨L / 2, W / 2⟩ th * weight⟩]⟩)) := by
  have hrest := fun c => timeLoop_eq T bvn offset cs prediction hwf _ (i + 1) c
    (Nat.le_add_left 1 i) rfl
  refine ⟨?_, ?_, ?_⟩
  · intro hc
    have hstep := timeLoop_culled_step T bvn offset cs prediction i cost xi yi pose hx hy hm
      hp hc
    refine ⟨hstep, ?_⟩
    rw [hstep, hrest, add_zero]
  · intro hc th hth
    have hstep := timeLoop_integrated_step T bvn offset cs prediction i cost xi yi th pose
      hx hy hth hm hp (not_lt.mpr hc)
    refine ⟨hstep, ?_⟩
    rw [hstep, hrest]
  · intro name weight id next L W x0 y0 t0 th costs
    constructor
    · intro hc
      rw [two_state_evaluate]
      simp only [stepContribution, hc, ite_true, zero_mul]
    · intro hc
      rw [two_state_evaluate]
      simp only [stepContribution, not_lt.mpr hc, ite_false, gt_iff_lt]

/-- Witness for C3: ego step 1 of the scenario trajectory against a pose at (1,0), which
is integrated, and against a pose at (20,0), which is culled. -/
theorem C3_cull_threshold_witness :
    (scenarioTrajectory ([] : List (CostEntry ℚ))).m_cartesianSample.WellFormed ∧
    timeLoop headingZeroTrig areaIntegrator ⟨1, 1 / 2⟩
        (scenarioTrajectory []).m_cartesianSample ⟨[tightPose 1 0, tightPose 1 0]⟩ 1 0 =
      some (0 + integrate headingZeroTrig areaIntegrator (tightPose 1 0) ⟨1, 0⟩ ⟨1, 1 / 2⟩ 0 +
        ∑ j ∈ Finset.Ico (1 + 1)
          (min (scenarioTrajectory ([] : List (CostEntry ℚ))).m_cartesianSample.x.length
            (PredictedObject.mk [tightPose 1 0, tightPose 1 0]).predictedPath.length),
          pairedContribution headingZeroTrig areaIntegrator ⟨1, 1 / 2⟩
            (scenarioTrajectory []).m_cartesianSample ⟨[tightPose 1 0, tightPose 1 0]⟩ j) ∧
    evaluateTrajectory headingZeroTrig areaIntegrator
        ⟨"prob", 3, [(7, ⟨[tightPose 20 0, tightPose 20 0]⟩)], 2, 1⟩
        ⟨⟨[0, 1], [0, 0], [0, 0]⟩, []⟩ =
      some ⟨⟨[0, 1], [0, 0], [0, 0]⟩, [] ++ [⟨"prob", 0, 0⟩]⟩ :=
  ⟨⟨rfl, rfl⟩,
    ((C3_cull_threshold headingZeroTrig areaIntegrator ⟨1, 1 / 2⟩
      (scenarioTrajectory []).m_cartesianSample ⟨[tightPose 1 0, tightPose 1 0]⟩ 1 0 1 0
      (tightPose 1 0) ⟨rfl, rfl⟩ (le_refl 1) rfl rfl (by decide) rfl).2.1
        (by norm_num [tightPose, Vector2d.sub_mk, Vector2d.add_mk,
          AlignedBox2d.squaredExteriorDistance, AlignedBox2d.axisTerm]) 0 rfl).2,
    ((C3_cull_threshold headingZeroTrig areaIntegrator ⟨1, 1 / 2⟩
      ⟨[0, 1], [0, 0], [0, 0]⟩ ⟨[tightPose 20 0, tightPose 20 0]⟩ 1 0 1 0
      (tightPose 20 0) ⟨rfl, rfl⟩ (le_refl 1) rfl rfl (by decide) rfl).2.2
        "prob" 3 7 (tightPose 20 0) 2 1 0 0 0 0 []).1
        (by norm_num [tightPose, Vector2d.sub_mk, Vector2d.add_mk,
          AlignedBox2d.squaredExteriorDistance, AlignedBox2d.axisTerm])⟩

/-! ### Claim C4 -/

/-- C4: the raw cost of a mapping is the sum of the raw costs of its entries taken alone;
in particular the cost with two obstacles is the sum of the two single-obstacle costs, and
the cost depends neither on the obstacle ids nor on the iteration order. -/
theorem C4_obstacle_additivity (T : Trig α) (bvn : Integrator α)
    (s : CalculateCollisionProbabilityFast α) (trajectory : TrajectorySample α)
    (hwf : trajectory.m_cartesianSample.WellFormed) :
    ∃ single : PredictedObject α → α,
      (∀ (id : Int) (p : PredictedObject α),
        rawCost T bvn { s with m_predictions := [(id, p)] } trajectory = some (single p)) ∧
      (∀ (id1 id2 : Int) (p1 p2 : PredictedObject α),
        rawCost T bvn { s with m_predictions := [(id1, p1), (id2, p2)] } trajectory =
          some (single p1 + single p2)) ∧
      (∀ preds : List (Int × PredictedObject α),
        rawCost T bvn { s with m_predictions := preds } trajectory =
          some ((preds.map (fun e => single e.2)).sum)) ∧
      (∀ preds1 preds2 : List (Int × PredictedObject α), preds1.Perm preds2 →
        rawCost T bvn { s with m_predictions := preds1 } trajectory =
          rawCost T bvn { s with m_predictions := preds2 } trajectory) := by
  refine ⟨fun p => specObstacleCost T bvn ⟨s.m_vehicleLength / 2, s.m_vehicleWidth / 2⟩
    trajectory.m_cartesianSample p, ?_, ?_, ?_, ?_⟩
  · intro id p
    rw [rawCost_eq T bvn _ trajectory hwf]
    simp [specRawCost]
  · intro id1 id2 p1 p2
    rw [rawCost_eq T bvn _ trajectory hwf]
    simp [specRawCost]
  · intro preds
    rw [rawCost_eq T bvn _ trajectory hwf]
    rfl
  · intro preds1 preds2 hperm
    rw [rawCost_eq T bvn _ trajectory hwf, rawCost_eq T bvn _ trajectory hwf]
    simp only [specRawCost]
    rw [(hperm.map _).sum_eq]

/-- Witness for C4: the scenario trajectory. -/
theorem C4_obstacle_additivity_witness :
    ∃ single : PredictedObject ℚ → ℚ,
      (∀ (id : Int) (p : PredictedObject ℚ),
        rawCost headingZeroTrig areaIntegrator
          { scenarioStrategy "prob" 3 [] with m_predictions := [(id, p)] }
          (scenarioTrajectory []) = some (single p)) ∧
      (∀ (id1 id2 : Int) (p1 p2 : PredictedObject ℚ),
        rawCost headingZeroTrig areaIntegrator
          { scenarioStrategy "prob" 3 [] with m_predictions := [(id1, p1), (id2, p2)] }
          (scenarioTrajectory []) = some (single p1 + single p2)) ∧
      (∀ preds : List (Int × PredictedObject ℚ),
        rawCost headingZeroTrig areaIntegrator
          { scenarioStrategy "prob" 3 [] with m_predictions := preds }
          (scenarioTrajectory []) = some ((preds.map (fun e => single e.2)).sum)) ∧
      (∀ preds1 preds2 : List (Int × PredictedObject ℚ), preds1.Perm preds2 →
        rawCost headingZeroTrig areaIntegrator
          { scenarioStrategy "prob" 3 [] with m_predictions := preds1 }
          (scenarioTrajectory []) =
        rawCost headingZeroTrig areaIntegrator
          { scenarioStrategy "prob" 3 [] with m_predictions := preds2 }
          (scenarioTrajectory [])) :=
  C4_obstacle_additivity headingZeroTrig areaIntegrator (scenarioStrategy "prob" 3 [])
    (scenarioTrajectory []) ⟨rfl, rfl⟩

/-! ### Claim C5 -/

/-- C5, the claim as stated fails: with vehicle length and width 1, the ego at (0,0), (3,0)
with heading 0, one obstacle predicted at the origin with covariance `[[100,0],[0,1]]`
and the integrator the bivariate normal probability mass, rotating the headings and the
covariances by `π/2` strictly lowers the raw cost. -/
theorem C5_rotation_changes_cost :
    ∃ cost rotated : ℝ,
      rawCost realTrig bvnMass
        ⟨"prob", 1, [(0, ⟨[⟨⟨0, 0⟩, ⟨100, 0, 0, 1⟩⟩, ⟨⟨0, 0⟩, ⟨100, 0, 0, 1⟩⟩]⟩)], 1, 1⟩
        ⟨⟨[0, 3], [0, 0], [0, 0]⟩, []⟩ = some cost ∧
      rawCost realTrig bvnMass
        (CalculateCollisionProbabilityFast.rotateCovariances realTrig (Real.pi / 2)
          ⟨"prob", 1, [(0, ⟨[⟨⟨0, 0⟩, ⟨100, 0, 0, 1⟩⟩, ⟨⟨0, 0⟩, ⟨100, 0, 0, 1⟩⟩]⟩)], 1, 1⟩)
        (TrajectorySample.rotateHeadings (Real.pi / 2) ⟨⟨[0, 3], [0, 0], [0, 0]⟩, []⟩) =
          some rotated ∧
      rotated < cost := by
  refine ⟨_, _, rotation_example_cost ⟨100, 0, 0, 1⟩, rotation_example_rotated_cost ⟨100, 0, 0, 1⟩, ?_⟩
  rw [abs_of_nonneg (bvnMass_nonneg _ _ _), abs_of_nonneg (bvnMass_nonneg _ _ _)]
  exact rotation_example_mass_lt

/-- C5 as amended: rotating every ego heading by `phi` and every obstacle covariance `S`
to `R(phi) S R(phi)ᵀ` leaves the raw cost unchanged provided that, for every obstacle and
every time index `1 ≤ i ≤ min (n-1) (m-1)`, the step is culled or the ego position
`(x[i], y[i])` coincides with the obstacle mean at index `i-1`. -/
theorem C5_rotation_invariance_at_coincident_steps (bvn : Integrator ℝ) (phi : ℝ)
    (s : CalculateCollisionProbabilityFast ℝ) (trajectory : TrajectorySample ℝ)
    (hwf : trajectory.m_cartesianSample.WellFormed)
    (hco : ∀ e ∈ s.m_predictions, ∀ i : Nat, 1 ≤ i →
      i < trajectory.m_cartesianSample.x.length → i < e.2.predictedPath.length →
      cullTest ⟨s.m_vehicleLength / 2, s.m_vehicleWidth / 2⟩
          ⟨trajectory.m_cartesianSample.x.getD i 0, trajectory.m_cartesianSample.y.getD i 0⟩
          (e.2.predictedPath.getD (i - 1) PoseWithCovariance.origin).position ∨
        (⟨trajectory.m_cartesianSample.x.getD i 0,
          trajectory.m_cartesianSample.y.getD i 0⟩ : Vector2d ℝ) =
          (e.2.predictedPath.getD (i - 1) PoseWithCovariance.origin).position) :
    ∃ cost : ℝ,
      rawCost realTrig bvn s trajectory = some cost ∧
      rawCost realTrig bvn (s.rotateCovariances realTrig phi)
        (trajectory.rotateHeadings phi) = some cost := by
  have hwf2 : (trajectory.rotateHeadings phi).m_cartesianSample.WellFormed := by
    unfold CartesianSample.WellFormed TrajectorySample.rotateHeadings
    simp only [List.length_map]
    exact hwf
  have hspec : specRawCost realTrig bvn (s.rotateCovariances realTrig phi)
      (trajectory.rotateHeadings phi) = specRawCost realTrig bvn s trajectory := by
    simp only [specRawCost, CalculateCollisionProbabilityFast.rotateCovariances, List.map_map]
    refine congrArg List.sum (List.map_congr_left ?_)
    intro e he
    simp only [Function.comp, specObstacleCost, TrajectorySample.rotateHeadings,
      List.length_map]
    apply Finset.sum_congr rfl
    intro i hi
    rw [Finset.mem_Icc] at hi
    have hn : i < trajectory.m_cartesianSample.x.length := by
      have := le_trans hi.2 (Nat.min_le_left _ _)
      omega
    have hm : i < e.2.predictedPath.length := by
      have := le_trans hi.2 (Nat.min_le_right _ _)
      omega
    exact paired_rotate bvn phi _ _ e.2 hwf i hi.1 hn hm (hco e he i hi.1 hn hm)
  refine ⟨specRawCost realTrig bvn s trajectory, rawCost_eq realTrig bvn s trajectory hwf, ?_⟩
  rw [rawCost_eq realTrig bvn (s.rotateCovariances realTrig phi)
    (trajectory.rotateHeadings phi) hwf2, hspec]

/-- Witness for C5 as amended: the ego at (0,0), (1,0) and an obstacle predicted at (1,0),
so that ego step 1 coincides with the obstacle mean. -/
theorem C5_rotation_invariance_at_coincident_steps_witness :
    ∃ cost : ℝ,
      rawCost realTrig (fun box _ _ => box.min.x)
        ⟨"prob", 1, [(0, ⟨[⟨⟨1, 0⟩, ⟨2, 0, 0, 1⟩⟩, ⟨⟨1, 0⟩, ⟨2, 0, 0, 1⟩⟩]⟩)], 2, 1⟩
        ⟨⟨[0, 1], [0, 0], [0, 0]⟩, []⟩ = some cost ∧
      rawCost realTrig (fun box _ _ => box.min.x)
        (CalculateCollisionProbabilityFast.rotateCovariances realTrig 1
          ⟨"prob", 1, [(0, ⟨[⟨⟨1, 0⟩, ⟨2, 0, 0, 1⟩⟩, ⟨⟨1, 0⟩, ⟨2, 0, 0, 1⟩⟩]⟩)], 2, 1⟩)
        (TrajectorySample.rotateHeadings 1 ⟨⟨[0, 1], [0, 0], [0, 0]⟩, []⟩) = some cost :=
  C5_rotation_invariance_at_coincident_steps (fun box _ _ => box.min.x) 1
    ⟨"prob", 1, [(0, ⟨[⟨⟨1, 0⟩, ⟨2, 0, 0, 1⟩⟩, ⟨⟨1, 0⟩, ⟨2, 0, 0, 1⟩⟩]⟩)], 2, 1⟩
    ⟨⟨[0, 1], [0, 0], [0, 0]⟩, []⟩ ⟨rfl, rfl⟩
    (by
      intro e he i h1 hn hm
      rw [List.mem_singleton] at he
      subst he
      have hi : i = 1 := by
        have : i < 2 := hn
        omega
      subst hi
      exact Or.inr rfl)

/-! ### Claim C6 -/

/-- C6, the claim as stated fails: in the scenario with the ego at (0,0), (1,0), (2,0),
heading 0, vehicle length 2 and width 1, and one obstacle whose predicted path consists
of the single entry at (1,0) with covariance `[[0.01,0],[0,0.01]]`, the raw cost appended
by `evaluateTrajectory` with the bivariate normal probability mass as integrator is
exactly 0, which is not within 0.01 of 1. -/
theorem C6_single_entry_path_costs_nothing :
    evaluateTrajectory realTrig bvnMass
        (scenarioStrategy "prob" 1 [(0, ⟨[⟨⟨1, 0⟩, ⟨0.01, 0, 0, 0.01⟩⟩]⟩)])
        (scenarioTrajectory []) =
      some ((scenarioTrajectory []).addCostValueToList "prob" 0 0) ∧
    ¬ (|(0 : ℝ) - 1| ≤ 0.01) := by
  refine ⟨scenario_single_entry_cost realTrig bvnMass "prob" 1 [] 0 _, ?_⟩
  norm_num

/-- C6 as amended: in that scenario the first path entry, at (1,0) with covariance
`[[0.01,0],[0,0.01]]`, is paired with ego step 1 only when the path has a second entry.
With the path consisting of that entry alone the appended raw and weighted costs are 0,
whatever the integrator. With a second entry (any pose) the appended raw cost is the
absolute value of what the integrator returns for the box with corners (1, 0.5) and
(-1, -0.5), mean (0,0) and that covariance; with the bivariate normal probability mass
as integrator it lies within 0.01 of 1, and the appended weighted cost is the raw cost
times the weight. -/
theorem C6_scenario_cost (name : String) (weight : ℝ) (costs : List (CostEntry ℝ))
    (id : Int) (next : PoseWithCovariance ℝ) :
    (∀ bvn : Integrator ℝ,
      evaluateTrajectory realTrig bvn
          (scenarioStrategy name weight [(id, ⟨[⟨⟨1, 0⟩, ⟨0.01, 0, 0, 0.01⟩⟩]⟩)])
          (scenarioTrajectory costs) =
        some ((scenarioTrajectory costs).addCostValueToList name 0 0)) ∧
    (∀ bvn : Integrator ℝ,
      evaluateTrajectory realTrig bvn
          (scenarioStrategy name weight [(id, ⟨[⟨⟨1, 0⟩, ⟨0.01, 0, 0, 0.01⟩⟩, next]⟩)])
          (scenarioTrajectory costs) =
        some ((scenarioTrajectory costs).addCostValueToList name
          |bvn ⟨⟨1, 1 / 2⟩, ⟨-1, -(1 / 2)⟩⟩ Vector2d.Zero ⟨0.01, 0, 0, 0.01⟩|
          (|bvn ⟨⟨1, 1 / 2⟩, ⟨-1, -(1 / 2)⟩⟩ Vector2d.Zero ⟨0.01, 0, 0, 0.01⟩| * weight))) ∧
    (∃ raw : ℝ,
      evaluateTrajectory realTrig bvnMass
          (scenarioStrategy name weight [(id, ⟨[⟨⟨1, 0⟩, ⟨0.01, 0, 0, 0.01⟩⟩, next]⟩)])
          (scenarioTrajectory costs) =
        some ((scenarioTrajectory costs).addCostValueToList name raw (raw * weight)) ∧
      |raw - 1| ≤ 0.01) := by
  have htwo : ∀ bvn : Integrator ℝ,
      evaluateTrajectory realTrig bvn
          (scenarioStrategy name weight [(id, ⟨[⟨⟨1, 0⟩, ⟨0.01, 0, 0, 0.01⟩⟩, next]⟩)])
          (scenarioTrajectory costs) =
        some ((scenarioTrajectory costs).addCostValueToList name
          |bvn ⟨⟨1, 1 / 2⟩, ⟨-1, -(1 / 2)⟩⟩ Vector2d.Zero ⟨0.01, 0, 0, 0.01⟩|
          (|bvn ⟨⟨1, 1 / 2⟩, ⟨-1, -(1 / 2)⟩⟩ Vector2d.Zero ⟨0.01, 0, 0, 0.01⟩| * weight)) := by
    intro bvn
    rw [evaluateTrajectory_eq realTrig bvn _ _ ⟨rfl, rfl⟩]
    have hc : ¬ (AlignedBox2d.mk ((⟨1, 0⟩ : Vector2d ℝ) - ⟨2 / 2, 1 / 2⟩)
        ((⟨1, 0⟩ : Vector2d ℝ) + ⟨2 / 2, 1 / 2⟩)).squaredExteriorDistance ⟨1, 0⟩ > 50 := by
      simp only [Vector2d.sub_mk, Vector2d.add_mk, AlignedBox2d.squaredExteriorDistance,
        AlignedBox2d.axisTerm]
      norm_num
    have hstep : pairedContribution realTrig bvn ⟨2 / 2, 1 / 2⟩
        ⟨[0, 1, 2], [0, 0, 0], [0, 0, 0]⟩
        ⟨[⟨⟨1, 0⟩, ⟨0.01, 0, 0, 0.01⟩⟩, next]⟩ 1 =
        |bvn ⟨⟨1, 1 / 2⟩, ⟨-1, -(1 / 2)⟩⟩ Vector2d.Zero ⟨0.01, 0, 0, 0.01⟩| := by
      simp only [pairedContribution, stepContribution, List.getD_cons_succ,
        List.getD_cons_zero, Nat.sub_self, hc, ite_false]
      rw [integrate_heading_zero]
      norm_num
    have hraw : specRawCost realTrig bvn
        (scenarioStrategy name weight [(id, ⟨[⟨⟨1, 0⟩, ⟨0.01, 0, 0, 0.01⟩⟩, next]⟩)])
        (scenarioTrajectory costs) =
        |bvn ⟨⟨1, 1 / 2⟩, ⟨-1, -(1 / 2)⟩⟩ Vector2d.Zero ⟨0.01, 0, 0, 0.01⟩| := by
      simp only [specRawCost, specObstacleCost, scenarioStrategy, scenarioTrajectory,
        List.map_cons, List.map_nil, List.sum_cons, List.sum_nil, add_zero, List.length_cons,
        List.length_nil]
      rw [show min (0 + 1 + 1 + 1 - 1) (0 + 1 + 1 - 1) = 1 from rfl, Finset.Icc_self,
        Finset.sum_singleton]
      exact hstep
    rw [hraw]
    rfl
  refine ⟨fun bvn => scenario_single_entry_cost realTrig bvn name weight costs id _, htwo,
    ⟨_, htwo bvnMass, ?_⟩⟩
  rw [abs_of_nonneg (bvnMass_nonneg _ _ _)]
  exact scenario_mass_near_one

/-! ### Claim C7 -/

/-- C7: in the scenario with the ego at (0,0), (1,0), (2,0), heading 0, vehicle length 2
and width 1, and one obstacle predicted at (20,20) with any covariances and any
integrator: the squared exterior distance at ego step 1 from (20,20) to the box
`[0,2] x [-0.5,0.5]` is 704.25, which exceeds 50; the inner loop leaves the running total
as it found it; and the appended raw and weighted costs are both exactly 0. -/
theorem C7_far_obstacle_costs_nothing (T : Trig α) (bvn : Integrator α) (name : String)
    (weight : α) (costs : List (CostEntry α)) (id : Int)
    (path : List (PoseWithCovariance α))
    (hpath : ∀ pose ∈ path, pose.position = ⟨20, 20⟩) :
    (AlignedBox2d.mk (Vector2d.mk (1 : α) 0 - ⟨2 / 2, 1 / 2⟩)
        (Vector2d.mk (1 : α) 0 + ⟨2 / 2, 1 / 2⟩)).squaredExteriorDistance ⟨20, 20⟩
      = 704.25 ∧
    (704.25 : α) > 50 ∧
    (∀ cost : α, timeLoop T bvn ⟨2 / 2, 1 / 2⟩ (scenarioTrajectory costs).m_cartesianSample
        ⟨path⟩ 1 cost = some cost) ∧
    evaluateTrajectory T bvn (scenarioStrategy name weight [(id, ⟨path⟩)])
        (scenarioTrajectory costs) =
      some ((scenarioTrajectory costs).addCostValueToList name 0 0) := by
  have hwf : (scenarioTrajectory costs).m_cartesianSample.WellFormed := ⟨rfl, rfl⟩
  have hzero : specObstacleCost T bvn ⟨2 / 2, 1 / 2⟩
      (scenarioTrajectory costs).m_cartesianSample ⟨path⟩ = 0 := by
    unfold specObstacleCost
    apply Finset.sum_eq_zero
    intro i hi
    rw [Finset.mem_Icc] at hi
    have hlen : (scenarioTrajectory costs).m_cartesianSample.x.length = 3 := rfl
    have hi2 : i ≤ 2 := by
      have := hi.2
      rw [hlen] at this
      exact le_trans this (Nat.min_le_left _ _)
    have him : i - 1 < path.length := by
      have := le_trans hi.2 (Nat.min_le_right _ _)
      simp only at this
      omega
    have hpos := hpath _ (getD_mem_of_lt path (i - 1) PoseWithCovariance.origin him)
    unfold pairedContribution
    have hy : (scenarioTrajectory costs).m_cartesianSample.y.getD i 0 = 0 := by
      rcases hi with ⟨h1, -⟩
      interval_cases i <;> rfl
    have hx : (scenarioTrajectory costs).m_cartesianSample.x.getD i 0 ≤ 10 := by
      rcases hi with ⟨h1, -⟩
      interval_cases i <;> norm_num [scenarioTrajectory]
    rw [hy]
    exact scenario_far_step T bvn _ _ _ hpos hx
  refine ⟨?_, by norm_num, ?_, ?_⟩
  · simp only [Vector2d.sub_mk, Vector2d.add_mk, AlignedBox2d.squaredExteriorDistance,
      AlignedBox2d.axisTerm]
    norm_num
  · intro cost
    rw [timeLoop_from_one T bvn _ _ _ hwf, hzero, add_zero]
  · rw [evaluateTrajectory_eq T bvn _ _ hwf]
    have : specRawCost T bvn (scenarioStrategy name weight [(id, ⟨path⟩)])
        (scenarioTrajectory costs) = 0 := by
      simp only [specRawCost, scenarioStrategy, List.map_cons, List.map_nil, List.sum_cons,
        List.sum_nil, add_zero]
      exact hzero
    rw [this, zero_mul]
    rfl

/-- Witness for C7: a predicted path of three poses at (20,20). -/
theorem C7_far_obstacle_costs_nothing_witness :
    (AlignedBox2d.mk (Vector2d.mk (1 : ℚ) 0 - ⟨2 / 2, 1 / 2⟩)
        (Vector2d.mk (1 : ℚ) 0 + ⟨2 / 2, 1 / 2⟩)).squaredExteriorDistance ⟨20, 20⟩
      = 704.25 ∧
    (704.25 : ℚ) > 50 ∧
    (∀ cost : ℚ, timeLoop headingZeroTrig areaIntegrator ⟨2 / 2, 1 / 2⟩
        (scenarioTrajectory []).m_cartesianSample
        ⟨[tightPose 20 20, tightPose 20 20, tightPose 20 20]⟩ 1 cost = some cost) ∧
    evaluateTrajectory headingZeroTrig areaIntegrator
        (scenarioStrategy "prob" 3
          [(7, ⟨[tightPose 20 20, tightPose 20 20, tightPose 20 20]⟩)])
        (scenarioTrajectory []) =
      some ((scenarioTrajectory []).addCostValueToList "prob" 0 0) :=
  C7_far_obstacle_costs_nothing headingZeroTrig areaIntegrator "prob" 3 [] 7
    [tightPose 20 20, tightPose 20 20, tightPose 20 20]
    (by
      intro pose hpose
      simp only [List.mem_cons, List.mem_singleton, List.mem_nil_iff, or_false, or_self]
        at hpose
      rw [hpose]
      rfl)

/-! ### Claim C8 -/

/-- C8: on a trajectory whose x, y and theta have the same length, for every prediction
mapping with paths of any lengths: every pass of the loop body finds `x[i]`, `y[i]`,
`predictedPath.at(i-1)` and `theta[i]` in range and goes on to the next index, culled or
integrated, never into the failure branch; each inner loop returns the running total
plus the cost of its obstacle; and `evaluateTrajectory` returns the trajectory with its
own entry appended to the cost list and nothing else changed. -/
theorem C8_reads_in_range (T : Trig α) (bvn : Integrator α)
    (s : CalculateCollisionProbabilityFast α) (trajectory : TrajectorySample α)
    (hwf : trajectory.m_cartesianSample.WellFormed) :
    (∀ e ∈ s.m_predictions, ∀ i : Nat, 1 ≤ i → i < trajectory.m_cartesianSample.x.length →
      ¬ (i ≥ e.2.predictedPath.length) →
        ∃ (xi yi th : α) (pose : PoseWithCovariance α),
          trajectory.m_cartesianSample.x[i]? = some xi ∧
          trajectory.m_cartesianSample.y[i]? = some yi ∧
          e.2.predictedPath[i - 1]? = some pose ∧
          trajectory.m_cartesianSample.theta[i]? = some th ∧
          ∀ cost : α,
            timeLoop T bvn ⟨s.m_vehicleLength / 2, s.m_vehicleWidth / 2⟩
                trajectory.m_cartesianSample e.2 i cost =
              if cullTest ⟨s.m_vehicleLength / 2, s.m_vehicleWidth / 2⟩ ⟨xi, yi⟩ pose.position
              then
                timeLoop T bvn ⟨s.m_vehicleLength / 2, s.m_vehicleWidth / 2⟩
                  trajectory.m_cartesianSample e.2 (i + 1) cost
              else
                timeLoop T bvn ⟨s.m_vehicleLength / 2, s.m_vehicleWidth / 2⟩
                  trajectory.m_cartesianSample e.2 (i + 1)
                  (cost + integrate T bvn pose ⟨xi, yi⟩
                    ⟨s.m_vehicleLength / 2, s.m_vehicleWidth / 2⟩ th)) ∧
    (∀ e ∈ s.m_predictions, ∀ cost : α,
      timeLoop T bvn ⟨s.m_vehicleLength / 2, s.m_vehicleWidth / 2⟩
          trajectory.m_cartesianSample e.2 1 cost =
        some (cost + specObstacleCost T bvn ⟨s.m_vehicleLength / 2, s.m_vehicleWidth / 2⟩
          trajectory.m_cartesianSample e.2)) ∧
    evaluateTrajectory T bvn s trajectory =
      some ⟨trajectory.m_cartesianSample,
        trajectory.m_costList ++ [⟨s.m_functionName, specRawCost T bvn s trajectory,
          specRawCost T bvn s trajectory * s.m_costWeight⟩]⟩ := by
  refine ⟨?_, ?_, ?_⟩
  · intro e _ i hi hn hm
    have hy : i < trajectory.m_cartesianSample.y.length := by rw [hwf.1]; exact hn
    have ht : i < trajectory.m_cartesianSample.theta.length := by rw [hwf.2]; exact hn
    have hp : i - 1 < e.2.predictedPath.length := by omega
    have hx1 := getElem_opt_eq_some_getD trajectory.m_cartesianSample.x i 0 hn
    have hy1 := getElem_opt_eq_some_getD trajectory.m_cartesianSample.y i 0 hy
    have ht1 := getElem_opt_eq_some_getD trajectory.m_cartesianSample.theta i 0 ht
    have hp1 := getElem_opt_eq_some_getD e.2.predictedPath (i - 1) PoseWithCovariance.origin hp
    refine ⟨_, _, _, _, hx1, hy1, hp1, ht1, fun cost => ?_⟩
    split_ifs with hc
    · exact timeLoop_culled_step T bvn _ _ e.2 i cost _ _ _ hx1 hy1 (not_le.mp hm) hp1 hc
    · exact timeLoop_integrated_step T bvn _ _ e.2 i cost _ _ _ _ hx1 hy1 ht1 (not_le.mp hm)
        hp1 hc
  · intro e _ cost
    exact timeLoop_from_one T bvn _ _ e.2 hwf cost
  · rw [evaluateTrajectory_eq T bvn s trajectory hwf]
    rfl

/-- Witness for C8: a trajectory of two states against an empty path, a path longer than
the trajectory and a path of one pose. -/
theorem C8_reads_in_range_witness :
    evaluateTrajectory headingZeroTrig areaIntegrator
      ⟨"prob", 3, [(1, ⟨[]⟩), (2, ⟨[tightPose 1 0, tightPose 1 0, tightPose 1 0]⟩),
        (3, ⟨[tightPose 1 0]⟩)], 2, 1⟩
      ⟨⟨[0, 1], [0, 0], [0, 0]⟩, [⟨"jerk", 5, 10⟩]⟩ =
    some ⟨⟨[0, 1], [0, 0], [0, 0]⟩, [⟨"jerk", 5, 10⟩, ⟨"prob", 2, 6⟩]⟩ := by
  rw [(C8_reads_in_range headingZeroTrig areaIntegrator
    ⟨"prob", 3, [(1, ⟨[]⟩), (2, ⟨[tightPose 1 0, tightPose 1 0, tightPose 1 0]⟩),
      (3, ⟨[tightPose 1 0]⟩)], 2, 1⟩
    ⟨⟨[0, 1], [0, 0], [0, 0]⟩, [⟨"jerk", 5, 10⟩]⟩ ⟨rfl, rfl⟩).2.2]
  have h : specRawCost headingZeroTrig areaIntegrator
      ⟨"prob", 3, [(1, ⟨[]⟩), (2, ⟨[tightPose 1 0, tightPose 1 0, tightPose 1 0]⟩),
        (3, ⟨[tightPose 1 0]⟩)], 2, 1⟩
      ⟨⟨[0, 1], [0, 0], [0, 0]⟩, [⟨"jerk", 5, 10⟩]⟩ = 2 := by
    simp only [specRawCost, specObstacleCost, List.map_cons, List.map_nil, List.sum_cons,
      List.sum_nil, List.length_cons, List.length_nil]
    norm_num [pairedContribution, stepContribution, integrate, areaIntegrator, tightPose,
      headingZeroTrig, Vector2d.sub_mk, Vector2d.add_mk, AlignedBox2d.squaredExteriorDistance,
      AlignedBox2d.axisTerm, Rotation2D.apply, Rotation2D.inverse,
      Rotation2D.toRotationMatrix, Matrix2d.mulVec]
  rw [h]
  norm_num

/-! ### Claim C9 -/

/-- C10, the claim as stated fails: with vehicle length 18 and width 2, the ego at the
origin with heading π/2 and the obstacle mean at (0, 9), the mean lies inside the
heading-rotated footprint, yet the cull test fires (the squared exterior distance to the
heading-ignoring box is 64), and `evaluateTrajectory` appends the raw cost 0 whatever the
integrator returns. -/
theorem C10_long_vehicle_is_culled :
    inFootprint realTrig 18 2 ⟨0, 0⟩ (Real.pi / 2) ⟨0, 9⟩ ∧
    cullTest (⟨18 / 2, 2 / 2⟩ : Vector2d ℝ) ⟨0, 0⟩ ⟨0, 9⟩ ∧
    (AlignedBox2d.mk ((⟨0, 0⟩ : Vector2d ℝ) - ⟨18 / 2, 2 / 2⟩)
      ((⟨0, 0⟩ : Vector2d ℝ) + ⟨18 / 2, 2 / 2⟩)).squaredExteriorDistance ⟨0, 9⟩ = 64 ∧
    ∀ (bvn : Integrator ℝ) (cov : Matrix2d ℝ),
      evaluateTrajectory realTrig bvn
        ⟨"prob", 1, [(0, ⟨[⟨⟨0, 9⟩, cov⟩, ⟨⟨0, 9⟩, cov⟩]⟩)], 18, 2⟩
        ⟨⟨[0, 0], [0, 0], [Real.pi / 2, Real.pi / 2]⟩, []⟩ =
      some ⟨⟨[0, 0], [0, 0], [Real.pi / 2, Real.pi / 2]⟩, [⟨"prob", 0, 0⟩]⟩ := by
  have hd : (AlignedBox2d.mk ((⟨0, 0⟩ : Vector2d ℝ) - ⟨18 / 2, 2 / 2⟩)
      ((⟨0, 0⟩ : Vector2d ℝ) + ⟨18 / 2, 2 / 2⟩)).squaredExteriorDistance ⟨0, 9⟩
      = 64 := by
    simp only [Vector2d.sub_mk, Vector2d.add_mk, AlignedBox2d.squaredExteriorDistance,
      AlignedBox2d.axisTerm]
    norm_num
  have hcull : cullTest (⟨18 / 2, 2 / 2⟩ : Vector2d ℝ) ⟨0, 0⟩ ⟨0, 9⟩ := by
    unfold cullTest
    rw [hd]
    norm_num
  refine ⟨⟨9, 0, by norm_num [abs_of_pos], by norm_num, ?_⟩, hcull, hd, ?_⟩
  · simp [Rotation2D.apply, Rotation2D.toRotationMatrix, Matrix2d.mulVec, realTrig,
      Vector2d.add_mk]
  · intro bvn cov
    rw [evaluateTrajectory_eq realTrig bvn _ _ ⟨rfl, rfl⟩]
    have hstep : pairedContribution realTrig bvn ⟨18 / 2, 2 / 2⟩
        ⟨[0, 0], [0, 0], [Real.pi / 2, Real.pi / 2]⟩
        ⟨[⟨⟨0, 9⟩, cov⟩, ⟨⟨0, 9⟩, cov⟩]⟩ 1 = 0 := by
      have hc := hcull
      unfold cullTest at hc
      simp only [pairedContribution, stepContribution, List.getD_cons_succ,
        List.getD_cons_zero, Nat.sub_self, hc, ite_true]
    have hsum : specRawCost realTrig bvn
        ⟨"prob", 1, [(0, ⟨[⟨⟨0, 9⟩, cov⟩, ⟨⟨0, 9⟩, cov⟩]⟩)], 18, 2⟩
        ⟨⟨[0, 0], [0, 0], [Real.pi / 2, Real.pi / 2]⟩, []⟩ = 0 := by
      simp only [specRawCost, specObstacleCost, List.map_cons, List.map_nil, List.sum_cons,
        List.sum_nil, add_zero, List.length_cons, List.length_nil]
      rw [show min (0 + 1 + 1 - 1) (0 + 1 + 1 - 1) = 1 from rfl, Finset.Icc_self,
        Finset.sum_singleton]
      exact hstep
    rw [hsum]
    simp [TrajectorySample.addCostValueToList]

/-- C10 as amended: for a vehicle whose half-extents satisfy
`(L/2)^2 + (W/2)^2 ≤ 50`, every ego position and heading, and every obstacle mean inside
the heading-rotated footprint, the cull test does not fire, so the pass of the loop body
on that pair adds the value of `integrate` to the running total. -/
theorem C10_no_false_negative_for_moderate_vehicles (bvn : Integrator ℝ) (L W : ℝ)
    (cs : CartesianSample ℝ) (prediction : PredictedObject ℝ) (i : Nat) (cost : ℝ)
    (xi yi th : ℝ) (pose : PoseWithCovariance ℝ)
    (hx : cs.x[i]? = some xi) (hy : cs.y[i]? = some yi) (hth : cs.theta[i]? = some th)
    (hm : i < prediction.predictedPath.length)
    (hp : prediction.predictedPath[i - 1]? = some pose)
    (hsize : (L / 2) ^ 2 + (W / 2) ^ 2 ≤ 50)
    (h : inFootprint realTrig L W ⟨xi, yi⟩ th pose.position) :
    ¬ cullTest ⟨L / 2, W / 2⟩ ⟨xi, yi⟩ pose.position ∧
    timeLoop realTrig bvn ⟨L / 2, W / 2⟩ cs prediction i cost =
      timeLoop realTrig bvn ⟨L / 2, W / 2⟩ cs prediction (i + 1)
        (cost + integrate realTrig bvn pose ⟨xi, yi⟩ ⟨L / 2, W / 2⟩ th) := by
  have hle := footprint_sqdist_le L W ⟨xi, yi⟩ th pose.position h
  have hn : ¬ cullTest ⟨L / 2, W / 2⟩ ⟨xi, yi⟩ pose.position := by
    unfold cullTest
    rw [not_lt]
    exact le_trans hle hsize
  exact ⟨hn, timeLoop_integrated_step realTrig bvn _ cs prediction i cost xi yi th pose
    hx hy hth hm hp hn⟩

/-- Witness for C10 as amended: vehicle length 2 and width 1, ego step 1 at (1,0) with
heading 0 and the obstacle mean on the ego position. -/
theorem C10_no_false_negative_for_moderate_vehicles_witness :
    ¬ cullTest (⟨2 / 2, 1 / 2⟩ : Vector2d ℝ) ⟨1, 0⟩ ⟨1, 0⟩ ∧
    timeLoop realTrig (fun _ _ _ => 1) ⟨2 / 2, 1 / 2⟩ ⟨[0, 1, 2], [0, 0, 0], [0, 0, 0]⟩
        ⟨[⟨⟨1, 0⟩, ⟨1, 0, 0, 1⟩⟩, ⟨⟨1, 0⟩, ⟨1, 0, 0, 1⟩⟩]⟩ 1 0 =
      timeLoop realTrig (fun _ _ _ => 1) ⟨2 / 2, 1 / 2⟩ ⟨[0, 1, 2], [0, 0, 0], [0, 0, 0]⟩
        ⟨[⟨⟨1, 0⟩, ⟨1, 0, 0, 1⟩⟩, ⟨⟨1, 0⟩, ⟨1, 0, 0, 1⟩⟩]⟩ (1 + 1)
        (0 + integrate realTrig (fun _ _ _ => 1) ⟨⟨1, 0⟩, ⟨1, 0, 0, 1⟩⟩ ⟨1, 0⟩
          ⟨2 / 2, 1 / 2⟩ 0) :=
  C10_no_false_negative_for_moderate_vehicles (fun _ _ _ => 1) 2 1
    ⟨[0, 1, 2], [0, 0, 0], [0, 0, 0]⟩
    ⟨[⟨⟨1, 0⟩, ⟨1, 0, 0, 1⟩⟩, ⟨⟨1, 0⟩, ⟨1, 0, 0, 1⟩⟩]⟩ 1 0 1 0 0 ⟨⟨1, 0⟩, ⟨1, 0, 0, 1⟩⟩
    rfl rfl rfl (by decide) rfl (by norm_num)
    ⟨0, 0, by norm_num, by norm_num, by
      simp [Rotation2D.apply, Rotation2D.toRotationMatrix, Matrix2d.mulVec, realTrig,
        Vector2d.add_mk]⟩

/-! ### Claim C11 -/

/-- C11: rotation convention. `integrate` queries the integrator with mean (0,0), with the
box whose corners are `R(theta)⁻¹ (u - v) + offset` and `R(theta)⁻¹ (u - v) - offset`
(the forward and the inverse rotation of the offset cancel) and with the covariance
`R(theta)⁻¹ S (R(theta)⁻¹)ᵀ`, and returns the absolute value of the integrator's result;
`R(theta)⁻¹`, the rotation by `-theta`, is the inverse of the rotation matrix
`R(theta)`. -/
theorem C11_rotation_convention (bvn : Integrator ℝ) (pose : PoseWithCovariance ℝ)
    (u offset : Vector2d ℝ) (theta : ℝ) :
    integrate realTrig bvn pose u offset theta =
      |bvn ⟨(Rotation2D.mk theta).inverse.apply realTrig (u - pose.position) + offset,
            (Rotation2D.mk theta).inverse.apply realTrig (u - pose.position) - offset⟩
          ⟨0, 0⟩
          ((Rotation2D.mk theta).inverse.toRotationMatrix realTrig * pose.covariance *
            ((Rotation2D.mk theta).inverse.toRotationMatrix realTrig).transpose)| ∧
    (Rotation2D.mk theta).inverse.toRotationMatrix realTrig *
      (Rotation2D.mk theta).toRotationMatrix realTrig = Matrix2d.identity ∧
    (Rotation2D.mk theta).toRotationMatrix realTrig *
      (Rotation2D.mk theta).inverse.toRotationMatrix realTrig = Matrix2d.identity ∧
    (∀ w : Vector2d ℝ, (Rotation2D.mk theta).inverse.apply realTrig w =
      ((Rotation2D.mk theta).inverse.toRotationMatrix realTrig).mulVec w) :=
  ⟨integrate_query bvn pose u offset theta, inverse_mul_self theta, self_mul_inverse theta,
    fun _ => rfl⟩

/-! ### Claim C12 -/

/-- C12: ego step 0 is skipped. Two trajectories that agree on x, y and theta at every
index `≥ 1` (and may differ at index 0) get the same raw cost for every prediction
mapping, and when the first satisfies the data-model invariant `evaluateTrajectory`
appends the same raw cost and the same weighted cost to both. -/
theorem C12_first_ego_state_is_not_read (T : Trig α) (bvn : Integrator α)
    (s : CalculateCollisionProbabilityFast α) (t1 t2 : TrajectorySample α)
    (hx : ∀ j : Nat, 1 ≤ j → t1.m_cartesianSample.x[j]? = t2.m_cartesianSample.x[j]?)
    (hy : ∀ j : Nat, 1 ≤ j → t1.m_cartesianSample.y[j]? = t2.m_cartesianSample.y[j]?)
    (hth : ∀ j : Nat, 1 ≤ j →
      t1.m_cartesianSample.theta[j]? = t2.m_cartesianSample.theta[j]?) :
    rawCost T bvn s t1 = rawCost T bvn s t2 ∧
    (t1.m_cartesianSample.WellFormed →
      ∃ cost : α,
        evaluateTrajectory T bvn s t1 =
          some (t1.addCostValueToList s.m_functionName cost (cost * s.m_costWeight)) ∧
        evaluateTrajectory T bvn s t2 =
          some (t2.addCostValueToList s.m_functionName cost (cost * s.m_costWeight))) := by
  have hraw : rawCost T bvn s t1 = rawCost T bvn s t2 := by
    unfold rawCost
    exact obstacleLoop_congr T bvn _ t1.m_cartesianSample t2.m_cartesianSample
      (fun p cost => timeLoop_congr T bvn _ t1.m_cartesianSample t2.m_cartesianSample p p
        hx hy hth rfl (fun _ _ _ _ => rfl) _ 1 cost (le_refl 1) rfl) s.m_predictions 0
  refine ⟨hraw, fun hwf => ⟨specRawCost T bvn s t1, evaluateTrajectory_eq T bvn s t1 hwf, ?_⟩⟩
  have h1 := rawCost_eq T bvn s t1 hwf
  rw [hraw] at h1
  unfold evaluateTrajectory
  rw [h1]

/-- Witness for C12: the scenario trajectory and a trajectory that differs from it at
index 0 in x, y and theta. -/
theorem C12_first_ego_state_is_not_read_witness :
    rawCost headingZeroTrig areaIntegrator
        (scenarioStrategy "prob" 3 [(7, ⟨[tightPose 1 0, tightPose 1 0]⟩)])
        (scenarioTrajectory []) =
      rawCost headingZeroTrig areaIntegrator
        (scenarioStrategy "prob" 3 [(7, ⟨[tightPose 1 0, tightPose 1 0]⟩)])
        ⟨⟨[5, 1, 2], [7, 0, 0], [3, 0, 0]⟩, []⟩ :=
  (C12_first_ego_state_is_not_read headingZeroTrig areaIntegrator
    (scenarioStrategy "prob" 3 [(7, ⟨[tightPose 1 0, tightPose 1 0]⟩)])
    (scenarioTrajectory []) ⟨⟨[5, 1, 2], [7, 0, 0], [3, 0, 0]⟩, []⟩
    (by intro j hj; cases j with
      | zero => exact absurd hj (by decide)
      | succ k => rfl)
    (by intro j hj; cases j with
      | zero => exact absurd hj (by decide)
      | succ k => rfl)
    (by intro j hj; cases j with
      | zero => exact absurd hj (by decide)
      | succ k => rfl)).1

/-! ### Claim C13 -/

/-- C13: non-negativity. Whatever the integrator returns, the value of `integrate` is
`≥ 0`; on a trajectory with equal-length x, y, theta the raw cost appended by
`evaluateTrajectory` is `≥ 0`, and a mapping with one more obstacle never has a smaller
raw cost. -/
theorem C13_costs_are_non_negative (T : Trig α) (bvn : Integrator α)
    (s : CalculateCollisionProbabilityFast α) (trajectory : TrajectorySample α) :
    (∀ (pose : PoseWithCovariance α) (pos offset : Vector2d α) (orientation : α),
      0 ≤ integrate T bvn pose pos offset orientation) ∧
    (trajectory.m_cartesianSample.WellFormed →
      (∃ cost : α,
        evaluateTrajectory T bvn s trajectory =
          some (trajectory.addCostValueToList s.m_functionName cost (cost * s.m_costWeight)) ∧
        0 ≤ cost) ∧
      (∀ (preds1 preds2 : List (Int × PredictedObject α)) (e : Int × PredictedObject α),
        ∃ without extended : α,
          rawCost T bvn { s with m_predictions := preds1 ++ preds2 } trajectory =
            some without ∧
          rawCost T bvn { s with m_predictions := preds1 ++ e :: preds2 } trajectory =
            some extended ∧
          without ≤ extended)) := by
  refine ⟨integrate_nonneg T bvn, fun hwf => ⟨⟨specRawCost T bvn s trajectory,
    evaluateTrajectory_eq T bvn s trajectory hwf, specRawCost_nonneg T bvn s trajectory⟩, ?_⟩⟩
  intro preds1 preds2 e
  refine ⟨_, _, rawCost_eq T bvn _ trajectory hwf, rawCost_eq T bvn _ trajectory hwf, ?_⟩
  simp only [specRawCost, List.map_append, List.sum_append, List.map_cons, List.sum_cons]
  have := specObstacleCost_nonneg T bvn ⟨s.m_vehicleLength / 2, s.m_vehicleWidth / 2⟩
    trajectory.m_cartesianSample e.2
  linarith

/-- Witness for C13: the scenario trajectory with an integrator that returns negative
values. -/
theorem C13_costs_are_non_negative_witness :
    ∃ cost : ℚ,
      evaluateTrajectory headingZeroTrig (fun _ _ _ => -1)
          (scenarioStrategy "prob" 3 [(7, ⟨[tightPose 1 0, tightPose 1 0]⟩)])
          (scenarioTrajectory []) =
        some ((scenarioTrajectory []).addCostValueToList "prob" cost (cost * 3)) ∧
      0 ≤ cost :=
  ((C13_costs_are_non_negative headingZeroTrig (fun _ _ _ => -1)
    (scenarioStrategy "prob" 3 [(7, ⟨[tightPose 1 0, tightPose 1 0]⟩)])
    (scenarioTrajectory [])).2 ⟨rfl, rfl⟩).1

/-! ### Claim C14 -/

/-- C14: a sufficient condition for conservative culling. For a vehicle with `L ≥ 0`,
`W ≥ 0` and `(L/2)^2 + (W/2)^2 ≤ 50`, every ego position and heading and every obstacle
mean inside the heading-rotated footprint, the squared exterior distance from the mean
to the heading-ignoring cull box is at most `(L/2)^2 + (W/2)^2`, hence at most 50, the
cull test does not fire, and the pass of the loop body on that pair adds the value of
`integrate` to the running total. -/
theorem C14_footprint_is_within_threshold (bvn : Integrator ℝ) (L W : ℝ)
    (cs : CartesianSample ℝ) (prediction : PredictedObject ℝ) (i : Nat) (cost : ℝ)
    (xi yi th : ℝ) (pose : PoseWithCovariance ℝ)
    (hx : cs.x[i]? = some xi) (hy : cs.y[i]? = some yi) (hth : cs.theta[i]? = some th)
    (hm : i < prediction.predictedPath.length)
    (hp : prediction.predictedPath[i - 1]? = some pose)
    (hL : 0 ≤ L) (hW : 0 ≤ W) (hsize : (L / 2) ^ 2 + (W / 2) ^ 2 ≤ 50)
    (h : inFootprint realTrig L W ⟨xi, yi⟩ th pose.position) :
    (AlignedBox2d.mk ((⟨xi, yi⟩ : Vector2d ℝ) - ⟨L / 2, W / 2⟩)
        ((⟨xi, yi⟩ : Vector2d ℝ) + ⟨L / 2, W / 2⟩)).squaredExteriorDistance pose.position
      ≤ (L / 2) ^ 2 + (W / 2) ^ 2 ∧
    (AlignedBox2d.mk ((⟨xi, yi⟩ : Vector2d ℝ) - ⟨L / 2, W / 2⟩)
        ((⟨xi, yi⟩ : Vector2d ℝ) + ⟨L / 2, W / 2⟩)).squaredExteriorDistance pose.position
      ≤ 50 ∧
    ¬ cullTest ⟨L / 2, W / 2⟩ ⟨xi, yi⟩ pose.position ∧
    timeLoop realTrig bvn ⟨L / 2, W / 2⟩ cs prediction i cost =
      timeLoop realTrig bvn ⟨L / 2, W / 2⟩ cs prediction (i + 1)
        (cost + integrate realTrig bvn pose ⟨xi, yi⟩ ⟨L / 2, W / 2⟩ th) := by
  have _hl : 0 ≤ L / 2 := by positivity
  have _hw : 0 ≤ W / 2 := by positivity
  have hle := footprint_sqdist_le L W ⟨xi, yi⟩ th pose.position h
  have h50 := le_trans hle hsize
  have hn : ¬ cullTest ⟨L / 2, W / 2⟩ ⟨xi, yi⟩ pose.position := by
    unfold cullTest
    exact not_lt.mpr h50
  exact ⟨hle, h50, hn, timeLoop_integrated_step realTrig bvn _ cs prediction i cost xi yi th
    pose hx hy hth hm hp hn⟩

/-- Witness for C14: vehicle length 10 and width 2, ego step 1 at (1,0) with heading π/2
and the obstacle mean 5 units ahead along the rotated long axis. -/
theorem C14_footprint_is_within_threshold_witness :
    (AlignedBox2d.mk ((⟨1, 0⟩ : Vector2d ℝ) - ⟨10 / 2, 2 / 2⟩)
        ((⟨1, 0⟩ : Vector2d ℝ) + ⟨10 / 2, 2 / 2⟩)).squaredExteriorDistance ⟨1, 5⟩
      ≤ (10 / 2) ^ 2 + (2 / 2) ^ 2 ∧
    ¬ cullTest (⟨10 / 2, 2 / 2⟩ : Vector2d ℝ) ⟨1, 0⟩ ⟨1, 5⟩ :=
  have h := C14_footprint_is_within_threshold (fun _ _ _ => 1) 10 2
    ⟨[0, 1, 2], [0, 0, 0], [Real.pi / 2, Real.pi / 2, Real.pi / 2]⟩
    ⟨[⟨⟨1, 5⟩, ⟨1, 0, 0, 1⟩⟩, ⟨⟨1, 5⟩, ⟨1, 0, 0, 1⟩⟩]⟩ 1 0 1 0 (Real.pi / 2)
    ⟨⟨1, 5⟩, ⟨1, 0, 0, 1⟩⟩
    rfl rfl rfl (by decide) rfl (by norm_num) (by norm_num) (by norm_num)
    ⟨5, 0, by norm_num [abs_of_pos], by norm_num, by
      simp [Rotation2D.apply, Rotation2D.toRotationMatrix, Matrix2d.mulVec, realTrig,
        Vector2d.add_mk]⟩
  ⟨h.1, h.2.2.1⟩

/-! ### Claim C15 -/

/-- C15: the last pose of a predicted path is never used. The inner loop gives the same
result on two paths of the same length `m` that agree at the indices below
`min (n-1) (m-1)`; in particular replacing the final entry of a path changes neither the
result of the inner loop nor the raw cost of a mapping that holds the obstacle; and an
obstacle whose path has at most one entry leaves the running total as it is, wherever
that entry lies, so it can be dropped from the mapping without changing the raw cost,
and alone in the mapping it gives the raw cost 0. -/
theorem C15_last_pose_is_never_read (T : Trig α) (bvn : Integrator α)
    (s : CalculateCollisionProbabilityFast α) (trajectory : TrajectorySample α) :
    (∀ (p1 p2 : PredictedObject α), p1.predictedPath.length = p2.predictedPath.length →
      (∀ j : Nat, j < min (trajectory.m_cartesianSample.x.length - 1)
          (p1.predictedPath.length - 1) → p1.predictedPath[j]? = p2.predictedPath[j]?) →
      ∀ cost : α,
        timeLoop T bvn ⟨s.m_vehicleLength / 2, s.m_vehicleWidth / 2⟩
            trajectory.m_cartesianSample p1 1 cost =
          timeLoop T bvn ⟨s.m_vehicleLength / 2, s.m_vehicleWidth / 2⟩
            trajectory.m_cartesianSample p2 1 cost) ∧
    (∀ (preds1 preds2 : List (Int × PredictedObject α)) (id : Int)
        (init : List (PoseWithCovariance α)) (last changed : PoseWithCovariance α),
      rawCost T bvn { s with m_predictions := preds1 ++ (id, ⟨init ++ [last]⟩) :: preds2 }
          trajectory =
        rawCost T bvn
          { s with m_predictions := preds1 ++ (id, ⟨init ++ [changed]⟩) :: preds2 }
          trajectory) ∧
    (∀ (path : List (PoseWithCovariance α)), path.length ≤ 1 → ∀ cost : α,
      timeLoop T bvn ⟨s.m_vehicleLength / 2, s.m_vehicleWidth / 2⟩
        trajectory.m_cartesianSample ⟨path⟩ 1 cost = some cost) ∧
    (∀ (preds1 preds2 : List (Int × PredictedObject α)) (id : Int)
        (path : List (PoseWithCovariance α)), path.length ≤ 1 →
      rawCost T bvn { s with m_predictions := preds1 ++ (id, ⟨path⟩) :: preds2 } trajectory =
        rawCost T bvn { s with m_predictions := preds1 ++ preds2 } trajectory) ∧
    (∀ (id : Int) (path : List (PoseWithCovariance α)), path.length ≤ 1 →
      rawCost T bvn { s with m_predictions := [(id, ⟨path⟩)] } trajectory = some 0) := by
  have hgen : ∀ (p1 p2 : PredictedObject α),
      p1.predictedPath.length = p2.predictedPath.length →
      (∀ j : Nat, j < min (trajectory.m_cartesianSample.x.length - 1)
          (p1.predictedPath.length - 1) → p1.predictedPath[j]? = p2.predictedPath[j]?) →
      ∀ cost : α,
        timeLoop T bvn ⟨s.m_vehicleLength / 2, s.m_vehicleWidth / 2⟩
            trajectory.m_cartesianSample p1 1 cost =
          timeLoop T bvn ⟨s.m_vehicleLength / 2, s.m_vehicleWidth / 2⟩
            trajectory.m_cartesianSample p2 1 cost := by
    intro p1 p2 hlen hagree cost
    refine timeLoop_congr T bvn _ trajectory.m_cartesianSample trajectory.m_cartesianSample
      p1 p2 (fun _ _ => rfl) (fun _ _ => rfl) (fun _ _ => rfl) hlen ?_ _ 1 cost (le_refl 1) rfl
    intro j hj hn hm
    apply hagree
    rw [Nat.lt_min]
    omega
  have hlast : ∀ (init : List (PoseWithCovariance α)) (last changed : PoseWithCovariance α)
      (cost : α),
      timeLoop T bvn ⟨s.m_vehicleLength / 2, s.m_vehicleWidth / 2⟩
          trajectory.m_cartesianSample ⟨init ++ [last]⟩ 1 cost =
        timeLoop T bvn ⟨s.m_vehicleLength / 2, s.m_vehicleWidth / 2⟩
          trajectory.m_cartesianSample ⟨init ++ [changed]⟩ 1 cost := by
    intro init last changed cost
    apply hgen ⟨init ++ [last]⟩ ⟨init ++ [changed]⟩ (by simp)
    intro j hj
    have hji : j < init.length := by
      have := lt_of_lt_of_le hj (Nat.min_le_right _ _)
      simp only [List.length_append, List.length_singleton] at this
      omega
    simp only [List.getElem?_append_left hji]
  refine ⟨hgen, ?_, fun path hlen cost => timeLoop_short_path T bvn _ _ ⟨path⟩ hlen cost, ?_,
    ?_⟩
  · intro preds1 preds2 id init last changed
    unfold rawCost
    exact obstacleLoop_exchange T bvn _ _ preds1 preds2 id id _ _ (hlast init last changed) 0
  · intro preds1 preds2 id path hlen
    unfold rawCost
    exact obstacleLoop_drop T bvn _ _ preds1 preds2 id ⟨path⟩
      (fun cost => timeLoop_short_path T bvn _ _ ⟨path⟩ hlen cost) 0
  · intro id path hlen
    unfold rawCost
    simp only [obstacleLoop, timeLoop_short_path T bvn _ _ ⟨path⟩ hlen]

/-! ### Claim C16 -/

/-- C16: corner order of the integration box. The corner that `integrate` passes as the
minimum of the box exceeds the corner it passes as the maximum by exactly `2 * offset` in
each coordinate, for every heading, ego position and obstacle mean; so with a positive
half-extent the minimum is strictly greater than the maximum in that coordinate, and the
minimum is at most the maximum exactly when the half-extent is `≤ 0`. -/
theorem C16_box_corners_are_swapped (pose : PoseWithCovariance ℝ) (pos offset : Vector2d ℝ)
    (theta : ℝ) :
    (∀ bvn : Integrator ℝ, integrate realTrig bvn pose pos offset theta =
      |bvn (integrateBox realTrig pose pos offset theta) Vector2d.Zero
        (integrateCov realTrig pose theta)|) ∧
    (integrateBox realTrig pose pos offset theta).min.x -
      (integrateBox realTrig pose pos offset theta).max.x = 2 * offset.x ∧
    (integrateBox realTrig pose pos offset theta).min.y -
      (integrateBox realTrig pose pos offset theta).max.y = 2 * offset.y ∧
    (0 < offset.x → (integrateBox realTrig pose pos offset theta).max.x <
      (integrateBox realTrig pose pos offset theta).min.x) ∧
    (0 < offset.y → (integrateBox realTrig pose pos offset theta).max.y <
      (integrateBox realTrig pose pos offset theta).min.y) ∧
    ((integrateBox realTrig pose pos offset theta).min.x ≤
      (integrateBox realTrig pose pos offset theta).max.x ↔ offset.x ≤ 0) ∧
    ((integrateBox realTrig pose pos offset theta).min.y ≤
      (integrateBox realTrig pose pos offset theta).max.y ↔ offset.y ≤ 0) := by
  refine ⟨fun bvn => rfl, ?_⟩
  rw [integrateBox_eq]
  generalize (Rotation2D.mk theta).inverse.apply realTrig (pos - pose.position) = c
  obtain ⟨c1, c2⟩ := c
  obtain ⟨o1, o2⟩ := offset
  simp only [Vector2d.add_mk, Vector2d.sub_mk]
  exact ⟨by ring, by ring, fun h => by linarith, fun h => by linarith,
    ⟨fun h => by linarith, fun h => by linarith⟩, ⟨fun h => by linarith, fun h => by linarith⟩⟩

/-! ### Claim C17 -/

/-- C17: covariance rotation preserves validity. For every heading and every symmetric
positive semi-definite covariance `S`, the covariance `R(theta)⁻¹ S (R(theta)⁻¹)ᵀ` that
`integrate` passes to the integrator is again symmetric and positive semi-definite and
has the trace and the determinant of `S`; for heading 0 it is `S`. -/
theorem C17_rotated_covariance_is_valid (v : Vector2d ℝ) (S : Matrix2d ℝ) (theta : ℝ)
    (hS : S.IsCovariance) :
    (∀ (bvn : Integrator ℝ) (pos offset : Vector2d ℝ),
      integrate realTrig bvn ⟨v, S⟩ pos offset theta =
        |bvn (integrateBox realTrig ⟨v, S⟩ pos offset theta) Vector2d.Zero
          (integrateCov realTrig ⟨v, S⟩ theta)|) ∧
    integrateCov realTrig ⟨v, S⟩ theta =
      (Rotation2D.mk theta).inverse.toRotationMatrix realTrig * S *
        ((Rotation2D.mk theta).inverse.toRotationMatrix realTrig).transpose ∧
    (integrateCov realTrig ⟨v, S⟩ theta).IsCovariance ∧
    (integrateCov realTrig ⟨v, S⟩ theta).trace = S.trace ∧
    (integrateCov realTrig ⟨v, S⟩ theta).det = S.det ∧
    integrateCov realTrig ⟨v, S⟩ 0 = S := by
  refine ⟨fun _ _ _ => rfl, rfl, ?_, ?_, conj_det theta S, ?_⟩
  · obtain ⟨hsym, hpsd⟩ := hS
    rw [integrateCov_eq]
    obtain ⟨a, b, b1, c⟩ := S
    simp only at hsym hpsd ⊢
    subst hsym
    refine ⟨by ring, fun x y => ?_⟩
    have h := hpsd (Real.cos theta * x - Real.sin theta * y)
      (Real.sin theta * x + Real.cos theta * y)
    have e : a * (Real.cos theta * x - Real.sin theta * y) ^ 2 +
        (b + b) * (Real.cos theta * x - Real.sin theta * y) *
          (Real.sin theta * x + Real.cos theta * y) +
        c * (Real.sin theta * x + Real.cos theta * y) ^ 2 =
        (Real.cos theta ^ 2 * a + Real.cos theta * Real.sin theta * (b + b) +
            Real.sin theta ^ 2 * c) * x ^ 2 +
          (Real.cos theta ^ 2 * b - Real.sin theta ^ 2 * b +
              Real.cos theta * Real.sin theta * (c - a) +
            (Real.cos theta ^ 2 * b - Real.sin theta ^ 2 * b +
              Real.cos theta * Real.sin theta * (c - a))) * x * y +
          (Real.sin theta ^ 2 * a - Real.cos theta * Real.sin theta * (b + b) +
            Real.cos theta ^ 2 * c) * y ^ 2 := by ring
    rw [← e]
    exact h
  · rw [integrateCov_eq]
    obtain ⟨a, b, b1, c⟩ := S
    simp only [Matrix2d.trace]
    have h := Real.cos_sq_add_sin_sq theta
    linear_combination (a + c) * h
  · obtain ⟨a, b, b1, c⟩ := S
    simp [integrateCov, Rotation2D.inverse, Rotation2D.toRotationMatrix, realTrig,
      Matrix2d.transpose, Matrix2d.mul_def, Matrix2d.mul]

/-- Witness for C17: the covariance `[[2, 1], [1, 3]]` at heading 1. -/
theorem C17_rotated_covariance_is_valid_witness :
    (integrateCov realTrig ⟨⟨0, 0⟩, ⟨2, 1, 1, 3⟩⟩ 1).IsCovariance ∧
    (integrateCov realTrig ⟨⟨0, 0⟩, ⟨2, 1, 1, 3⟩⟩ 1).trace =
      (⟨2, 1, 1, 3⟩ : Matrix2d ℝ).trace ∧
    (integrateCov realTrig ⟨⟨0, 0⟩, ⟨2, 1, 1, 3⟩⟩ 1).det = (⟨2, 1, 1, 3⟩ : Matrix2d ℝ).det :=
  have h := C17_rotated_covariance_is_valid ⟨0, 0⟩ ⟨2, 1, 1, 3⟩ 1
    ⟨rfl, fun a b => by
      simp only
      nlinarith [sq_nonneg (a + b), sq_nonneg a, sq_nonneg b]⟩
  ⟨h.2.2.1, h.2.2.2.1, h.2.2.2.2.1⟩

end Claims

end Frenetix
